import Mathlib

/-!
Shallow embedding of the staged pipeline execution engine
(`src/scaffolds/pipeline/src/index.ts`, duplicated in `src/unnamed/part_003`)
and the lifecycle phase runner (`src/scaffolds/nexoc/src/lifecycle/index.ts`).

Modelling conventions:
* JS `Map<string, T>` becomes an association list `List (String × T)` with
  `Map.set` replacing in place; JS `Set<string>` becomes a duplicate-free
  `List String` with append-if-absent `add`.
* Stage bodies and hook listeners are caller-supplied async closures that may
  throw; they are modelled as pure functions returning `Except`.  A stage body
  is a stateful closure, so it receives the number of earlier invocations of
  that stage (its closure state) as an extra argument.
* The engine's coarse-grained cooperative concurrency is modelled
  deterministically: `Promise.all` over one wave settles the wave's stages in
  stage-list order (`runWave`), which coincides with the JS semantics for
  stage bodies that do not suspend internally.
* Thrown values are threaded as the error side of `Except`; the engine state
  (context plus two ghost observation fields: the list of dispatched hook
  events and the per-stage invocation counts) is returned alongside both
  outcomes so that claims about "never invoked" are expressible.
* Engine-generated errors are an inductive type whose constructors correspond
  to the distinct `Error` message strings in the source
  (`Stage ... has unmet dependencies: ...` and
  `Circular dependency detected in pipeline stages`); values thrown by stage
  bodies or hook listeners are wrapped by `userError`.
-/

namespace Nexo

variable {α ε : Type}

/-- Model of JS `Map.has` on an association list keyed by strings. -/
def mapHas : List (String × α) → String → Bool
  | [], _ => false
  | p :: tl, k => p.1 == k || mapHas tl k

/-- Model of JS `Map.get`, returning `none` for a missing key. -/
def mapLookup : List (String × α) → String → Option α
  | [], _ => none
  | p :: tl, k => if p.1 == k then some p.2 else mapLookup tl k

/-- Model of JS `Map.set`: replace the (unique) existing entry in place,
append a new entry otherwise. -/
def mapSet : List (String × α) → String → α → List (String × α)
  | [], k, v => [(k, v)]
  | p :: tl, k, v => if p.1 == k then (k, v) :: tl else p :: mapSet tl k v

/-- Model of JS `Set.add`: append the element unless already present. -/
def setAdd : List String → String → List String
  | [], n => [n]
  | m :: tl, n => if m == n then m :: tl else m :: setAdd tl n

/-- PipelineContext from `@nexoc/types`, as created by `createPipelineContext`. -/
structure PipelineContext (α : Type) where
  pipelineName : String
  currentStageIndex : Nat
  stageResults : List (String × α)
  shared : List (String × α)
  aborted : Bool
  skippedStages : List String

/-- Source `createPipelineContext`: fresh run-scoped context. -/
def createPipelineContext (name : String) : PipelineContext α :=
  { pipelineName := name
    currentStageIndex := 0
    stageResults := []
    shared := []
    aborted := false
    skippedStages := [] }

/-- The `onError` policy; `cont` renders the source string literal `'continue'`
(a reserved word in Lean). -/
inductive OnError where
  | stop
  | cont
  | retry
deriving DecidableEq

/-- PipelineOptions (`name`, `parallel`, `onError`, `maxRetries`).  Optional
fields are `Option`s; `parallel`/`onError` absence behaves as `false`/`stop`
in the source conditionals, so they are stored resolved. -/
structure PipelineOptions where
  name : String
  parallel : Bool
  onError : OnError
  maxRetries : Option Nat

/-- The effective retry bound `this.options.maxRetries || 3`: in JS both
`undefined` and `0` are falsy, so only a positive `maxRetries` is kept. -/
def effMaxRetries (o : PipelineOptions) : Nat :=
  match o.maxRetries with
  | some (n + 1) => n + 1
  | _ => 3

/-- PipelineStage.  `execute` additionally receives the attempt index (the
engine's `retryCount`), modelling a stateful JS closure: the catch block is
reachable only after the body ran, so when the body is invoked at attempt `k`
exactly `k` earlier invocations have happened in this run; `dependencies` is
`[]` when the optional field is absent (the source guard
`!stage.dependencies?.length` conflates the two). -/
structure Stage (α ε : Type) where
  name : String
  execute : Nat → α → PipelineContext α → Except ε α
  dependencies : List String
  condition : Option (PipelineContext α → Bool)
  skippable : Bool

/-- Hook events dispatched by the pipeline engine, with their payloads. -/
inductive HookEvent (α ε : Type) where
  | pipelineStart
  | pipelineEnd
  | stageSkip (stageName : String)
  | stageBefore (stageName : String)
  | stageAfter (stageName : String) (result : α)
  | stageError (stageName : String) (err : ε)

/-- Engine state threaded through a run: the mutable context plus two ghost
observation fields — the sequence of dispatched hook events and the number of
times each stage body has been invoked (keyed by stage name). -/
structure EngineState (α ε : Type) where
  ctx : PipelineContext α
  trace : List (HookEvent α ε)
  counts : String → Nat

/-- Values thrown out of the engine.  `unmetDependencies` carries the data the
source interpolates into its message (the stage name and the stage's declared
dependency list); `circularDependency` is the fixed circularity message;
`userError` wraps a value thrown by a stage body or a hook listener. -/
inductive PipeError (ε : Type) where
  | unmetDependencies (stageName : String) (dependencies : List String)
  | circularDependency
  | userError (e : ε)

/-- A pipeline: its stage list, options, and the shared hook bus.  The bus is
modelled as the aggregate effect of the registered listeners for each event:
it may rewrite the context or throw. -/
structure Pipeline (α ε : Type) where
  stages : List (Stage α ε)
  options : PipelineOptions
  hooks : HookEvent α ε → PipelineContext α → Except ε (PipelineContext α)

/-- Dispatch `callHook`: records the event in the ghost trace, then applies the
listeners, which may mutate the context or throw. -/
def callHook (P : Pipeline α ε) (ev : HookEvent α ε) (s : EngineState α ε) :
    Except ε Unit × EngineState α ε :=
  let s1 : EngineState α ε := { s with trace := s.trace ++ [ev] }
  match P.hooks ev s1.ctx with
  | .ok ctx2 => (.ok (), { s1 with ctx := ctx2 })
  | .error e => (.error e, s1)

/-- Ghost bookkeeping: one more invocation of the named stage's body. -/
def bumpCount (s : EngineState α ε) (name : String) : EngineState α ε :=
  { s with counts := fun n => if n = name then s.counts n + 1 else s.counts n }

/-- Source `ctx.stageResults.set(stage.name, result)`. -/
def setResult (s : EngineState α ε) (name : String) (v : α) : EngineState α ε :=
  { s with ctx := { s.ctx with stageResults := mapSet s.ctx.stageResults name v } }

/-- Source `ctx.skippedStages.add(stage.name)`. -/
def addSkip (s : EngineState α ε) (name : String) : EngineState α ε :=
  { s with ctx := { s.ctx with skippedStages := setAdd s.ctx.skippedStages name } }

/-- The guard at the top of `executeStage`: a stage with no `condition` runs;
otherwise the condition decides. -/
def conditionPasses (stage : Stage α ε) (ctx : PipelineContext α) : Bool :=
  match stage.condition with
  | some cond => cond ctx
  | none => true

/-- Source `Pipeline.checkDependencies`: every declared dependency must be in
`stageResults` or in `skippedStages`. -/
def checkDependencies (stage : Stage α ε) (ctx : PipelineContext α) : Bool :=
  if stage.dependencies.isEmpty then true
  else stage.dependencies.all
    (fun dep => mapHas ctx.stageResults dep || ctx.skippedStages.contains dep)

/-- Source `Pipeline.executeStage`: condition guard, dependency check,
`stage:before`, the guarded body, and the catch block implementing the
stop/continue/retry policy.  The catch block appears twice because both the
stage body and the `stage:after` dispatch sit inside the source `try`. -/
def executeStage (P : Pipeline α ε) (stage : Stage α ε) (input : α)
    (s : EngineState α ε) (retryCount : Nat) :
    Except (PipeError ε) α × EngineState α ε :=
  if conditionPasses stage s.ctx = false then
    match callHook P (.stageSkip stage.name) s with
    | (.error e, s1) => (.error (.userError e), s1)
    | (.ok _, s1) => (.ok input, addSkip s1 stage.name)
  else if checkDependencies stage s.ctx = false then
    (.error (.unmetDependencies stage.name stage.dependencies), s)
  else
    match callHook P (.stageBefore stage.name) s with
    | (.error e, s1) => (.error (.userError e), s1)
    | (.ok _, s1) =>
      let s2 := bumpCount s1 stage.name
      match stage.execute retryCount input s2.ctx with
      | .ok result =>
        let s3 := setResult s2 stage.name result
        match callHook P (.stageAfter stage.name result) s3 with
        | (.ok _, s4) => (.ok result, s4)
        | (.error e, s4) =>
          match callHook P (.stageError stage.name e) s4 with
          | (.error e2, s5) => (.error (.userError e2), s5)
          | (.ok _, s5) =>
            if h : P.options.onError = .retry ∧ retryCount < effMaxRetries P.options then
              executeStage P stage input s5 (retryCount + 1)
            else if P.options.onError = .cont ∧ stage.skippable then
              (.ok input, addSkip s5 stage.name)
            else
              (.error (.userError e), s5)
      | .error e =>
        match callHook P (.stageError stage.name e) s2 with
        | (.error e2, s5) => (.error (.userError e2), s5)
        | (.ok _, s5) =>
          if h : P.options.onError = .retry ∧ retryCount < effMaxRetries P.options then
            executeStage P stage input s5 (retryCount + 1)
          else if P.options.onError = .cont ∧ stage.skippable then
            (.ok input, addSkip s5 stage.name)
          else
            (.error (.userError e), s5)
termination_by effMaxRetries P.options - retryCount
decreasing_by
  all_goals
    obtain ⟨h1, h2⟩ := h
    omega

/-- Source `Pipeline.executeSequential`, as a recursion over the remaining
stage list paired with the loop index `i` (only used to set
`currentStageIndex`).  The aborted flag is checked before every stage. -/
def executeSequential (P : Pipeline α ε) (rest : List (Stage α ε)) (i : Nat)
    (input : α) (s : EngineState α ε) :
    Except (PipeError ε) α × EngineState α ε :=
  match rest with
  | [] => (.ok input, s)
  | stage :: tl =>
    if s.ctx.aborted then (.ok input, s)
    else
      let s0 : EngineState α ε := { s with ctx := { s.ctx with currentStageIndex := i } }
      match executeStage P stage input s0 0 with
      | (.error e, s1) => (.error e, s1)
      | (.ok out, s1) => executeSequential P tl (i + 1) out s1

/-- One wave's `Promise.all(executable.map(stage => executeStage(...)))`,
modelled as in-order settlement: every stage of the wave receives the same
`input`, their results are collected positionally, and a rejection propagates. -/
def runWave (P : Pipeline α ε) (wave : List (Stage α ε)) (input : α)
    (s : EngineState α ε) :
    Except (PipeError ε) (List α) × EngineState α ε :=
  match wave with
  | [] => (.ok [], s)
  | stage :: tl =>
    match executeStage P stage input s 0 with
    | (.error e, s1) => (.error e, s1)
    | (.ok r, s1) =>
      match runWave P tl input s1 with
      | (.error e, s2) => (.error e, s2)
      | (.ok rs, s2) => (.ok (r :: rs), s2)

/-- The wave the loop selects: the source local `executable`, the pending
stages whose dependencies are currently satisfied, in stage-list order. -/
def executableStages (P : Pipeline α ε) (pending : List String)
    (ctx : PipelineContext α) : List (Stage α ε) :=
  P.stages.filter (fun st => pending.contains st.name && checkDependencies st ctx)

/-- The `forEach` bookkeeping after a wave: every executed stage's name leaves
`pending`. -/
def removeWave (pending : List String) (executable : List (Stage α ε)) : List String :=
  pending.filter (fun n => !(executable.any (fun st => st.name == n)))

/-- The `while (pending.size > 0)` loop of `Pipeline.executeParallel`.  The
`forEach` after the wave deletes the wave's names from `pending` and assigns
`currentInput = results[index]` for each wave member in stage-list order, so
the surviving value is the last result; the aborted check follows it. -/
def executeParallelLoop (P : Pipeline α ε) (pending : List String) (input : α)
    (s : EngineState α ε) :
    Except (PipeError ε) α × EngineState α ε :=
  if hp : pending.isEmpty then (.ok input, s)
  else
    let executable := executableStages P pending s.ctx
    if hx : executable.isEmpty then (.error .circularDependency, s)
    else
      match runWave P executable input s with
      | (.error e, s1) => (.error e, s1)
      | (.ok results, s1) =>
        let nextInput := results.getLastD input
        let pending2 := removeWave pending executable
        if s1.ctx.aborted then (.ok nextInput, s1)
        else executeParallelLoop P pending2 nextInput s1
termination_by pending.length
decreasing_by
  have hne : executableStages P pending s.ctx ≠ [] := by
    intro hnil
    apply hx
    show (executableStages P pending s.ctx).isEmpty = true
    rw [hnil]
    rfl
  obtain ⟨st, hst⟩ := List.exists_mem_of_ne_nil _ hne
  have hmem := List.mem_filter.mp hst
  have hcontains : pending.contains st.name = true :=
    ((Bool.and_eq_true _ _).mp hmem.2).1
  refine List.length_filter_lt_length_iff_exists.mpr ⟨st.name, ?_, ?_⟩
  · simpa using hcontains
  · simp only [Bool.not_eq_true', Bool.not_eq_false]
    exact List.any_eq_true.mpr ⟨st, hst, by simp⟩

/-- Source `Pipeline.executeParallel`: seed `pending` with every stage name. -/
def executeParallel (P : Pipeline α ε) (input : α) (s : EngineState α ε) :
    Except (PipeError ε) α × EngineState α ε :=
  executeParallelLoop P (P.stages.map (fun st => st.name)) input s

/-- Engine state at the top of `Pipeline.execute`: fresh context, no hook yet
dispatched, no stage body yet invoked. -/
def initialState (name : String) : EngineState α ε :=
  { ctx := createPipelineContext name, trace := [], counts := fun _ => 0 }

/-- Verification abbreviation: the engine state after one listener-free
attempt of `stage` whose body threw `e` (the `stage:before` and `stage:error`
dispatches are recorded and the ghost invocation count is bumped; the context
is untouched). -/
def failStepState (st : Stage α ε) (e : ε) (s : EngineState α ε) : EngineState α ε :=
  { ctx := s.ctx
    trace := s.trace ++ [HookEvent.stageBefore st.name, HookEvent.stageError st.name e]
    counts := (bumpCount s st.name).counts }

/-- Verification abbreviation: the engine state after a listener-free
successful attempt of `stage` producing `v`. -/
def successState (st : Stage α ε) (v : α) (s : EngineState α ε) : EngineState α ε :=
  { ctx := { s.ctx with stageResults := mapSet s.ctx.stageResults st.name v }
    trace := s.trace ++ [HookEvent.stageBefore st.name, HookEvent.stageAfter st.name v]
    counts := (bumpCount s st.name).counts }

/-- Verification abbreviation: the engine state after a listener-free failing
attempt of `stage` absorbed under the continue policy. -/
def absorbState (st : Stage α ε) (e : ε) (s : EngineState α ε) : EngineState α ε :=
  { ctx := { s.ctx with skippedStages := setAdd s.ctx.skippedStages st.name }
    trace := s.trace ++ [HookEvent.stageBefore st.name, HookEvent.stageError st.name e]
    counts := (bumpCount s st.name).counts }

/-- Source `Pipeline.execute`: fresh context, `pipeline:start` (outside the
`try`), the mode-selected body, `pipeline:end` on success; any error escaping
the `try` sets `ctx.aborted` and is re-thrown. -/
def Pipeline.execute (P : Pipeline α ε) (input : α) :
    Except (PipeError ε) α × EngineState α ε :=
  let s0 : EngineState α ε := initialState P.options.name
  match callHook P .pipelineStart s0 with
  | (.error e, s1) => (.error (.userError e), s1)
  | (.ok _, s1) =>
    match (if P.options.parallel then executeParallel P input s1
           else executeSequential P P.stages 0 input s1) with
    | (.error e, s2) => (.error e, { s2 with ctx := { s2.ctx with aborted := true } })
    | (.ok result, s2) =>
      match callHook P .pipelineEnd s2 with
      | (.error e, s3) => (.error (.userError e), { s3 with ctx := { s3.ctx with aborted := true } })
      | (.ok _, s3) => (.ok result, s3)

/-- A hook bus with zero registered listeners: every dispatch is a no-op
(the source `callHook` resolves immediately for a name with no listeners). -/
def noListeners : HookEvent α ε → PipelineContext α → Except ε (PipelineContext α) :=
  fun _ ctx => .ok ctx

/-- Listener discipline of spec section 5: hook listeners never throw and do
not write the engine-owned collections `stageResults` / `skippedStages`
(they may freely mutate the rest of the context). -/
def TameHooks (P : Pipeline α ε) : Prop :=
  ∀ ev ctx, ∃ ctx2, P.hooks ev ctx = .ok ctx2 ∧
    ctx2.stageResults = ctx.stageResults ∧ ctx2.skippedStages = ctx.skippedStages

/-- The exclusivity invariant of the spec data model: no stage name is both
completed in `stageResults` and skipped in `skippedStages`. -/
def Exclusive (ctx : PipelineContext α) : Prop :=
  ∀ n, ¬(mapHas ctx.stageResults n = true ∧ ctx.skippedStages.contains n = true)

/-- The eight lifecycle phases, in `LIFECYCLE_PHASES` table order. -/
inductive LifecyclePhase where
  | init
  | validate
  | prepare
  | execute
  | transform
  | generate
  | finalize
  | cleanup
deriving DecidableEq

/-- Source constant `LIFECYCLE_PHASES`. -/
def LIFECYCLE_PHASES : List LifecyclePhase :=
  [.init, .validate, .prepare, .execute, .transform, .generate, .finalize, .cleanup]

/-- LifecycleContext: phase, data value, abort flag with optional reason, and
free-form metadata (modelled as a string map). -/
structure LifecycleContext (α : Type) where
  phase : LifecyclePhase
  data : α
  aborted : Bool
  abortReason : Option String
  meta : List (String × String)

/-- Source `createLifecycleContext` (the `abortReason` field starts unset). -/
def createLifecycleContext (phase : LifecyclePhase) (data : α)
    (meta : List (String × String)) : LifecycleContext α :=
  { phase := phase, data := data, aborted := false, abortReason := none, meta := meta }

/-- LifecycleManager's mutable fields (`currentPhase`, `context`) plus a ghost
trace of the phases whose `lifecycle:<phase>` hook has been dispatched. -/
structure LifecycleState (α : Type) where
  currentPhase : Option LifecyclePhase
  context : Option (LifecycleContext α)
  lifecycleTrace : List LifecyclePhase

/-- A fresh manager, as after the constructor or `reset`. -/
def lifecycleInitial : LifecycleState α :=
  { currentPhase := none, context := none, lifecycleTrace := [] }

/-- The lifecycle hook bus: the aggregate effect of the listeners registered
for `lifecycle:<phase>`.  A listener may mutate the context it receives (this
is how `abort(reason)` acts, setting `aborted`/`abortReason`) or throw. -/
def LifecycleHooks (α ε : Type) : Type :=
  LifecyclePhase → LifecycleContext α → Except ε (LifecycleContext α)

/-- Source `LifecycleManager.runPhase`: build a fresh context, publish it as
the manager's current context, dispatch the phase hook, return the (listener
mutated) context. -/
def runPhase (hooks : LifecycleHooks α ε) (phase : LifecyclePhase) (data : α)
    (meta : List (String × String)) (st : LifecycleState α) :
    Except ε (LifecycleContext α × LifecycleState α) :=
  let ctx0 := createLifecycleContext phase data meta
  let st1 : LifecycleState α :=
    { st with currentPhase := some phase, context := some ctx0,
              lifecycleTrace := st.lifecycleTrace ++ [phase] }
  match hooks phase ctx0 with
  | .error e => .error e
  | .ok ctx1 => .ok (ctx1, { st1 with context := some ctx1 })

/-- Errors escaping `LifecycleManager.run`: the invalid-phase configuration
error, or a value thrown by a listener. -/
inductive LifecycleError (ε : Type) where
  | invalidPhase (startPhase endPhase : LifecyclePhase)
  | userError (e : ε)

/-- Options of `LifecycleManager.run`, with the source defaults resolved
(`startPhase = init`, `endPhase = cleanup`, `skipPhases = []`). -/
structure LifecycleRunOptions (α : Type) where
  startPhase : LifecyclePhase
  endPhase : LifecyclePhase
  skipPhases : List LifecyclePhase
  transform : Option (α → LifecyclePhase → α)
  meta : List (String × String)

/-- Default `run` options. -/
def defaultRunOptions : LifecycleRunOptions α :=
  { startPhase := .init, endPhase := .cleanup, skipPhases := [],
    transform := none, meta := [] }

/-- The `for (let i = startIndex; i <= endIndex; i++)` loop of
`LifecycleManager.run`, as a recursion over the remaining `(index, phase)`
pairs of the slice.  Skipped phases build no context and fire no hook; an
aborted context stops the loop; otherwise `transform` (when supplied, and not
at the last index) produces the next data value, else the context's own data
feeds forward. -/
def runLoop (hooks : LifecycleHooks α ε) (items : List (Nat × LifecyclePhase))
    (endIndex : Nat) (skipPhases : List LifecyclePhase)
    (transform : Option (α → LifecyclePhase → α)) (meta : List (String × String))
    (data : α) (last : Option (LifecycleContext α)) (st : LifecycleState α) :
    Except ε (Option (LifecycleContext α) × LifecycleState α) :=
  match items with
  | [] => .ok (last, st)
  | (i, phase) :: tl =>
    if skipPhases.contains phase then
      runLoop hooks tl endIndex skipPhases transform meta data last st
    else
      match runPhase hooks phase data meta st with
      | .error e => .error e
      | .ok (ctx, st1) =>
        if ctx.aborted then .ok (some ctx, st1)
        else
          let data2 := match transform with
            | some f => if i < endIndex then f ctx.data phase else ctx.data
            | none => ctx.data
          runLoop hooks tl endIndex skipPhases transform meta data2 (some ctx) st1

/-- Source `LifecycleManager.run`.  `List.indexOf` returns the list length for
a missing element, which plays the role of the source's `-1` sentinel; the
phase slice `[startIndex, endIndex]` is materialised from the indexed phase
table.  On a normal finish the last produced context is returned, with a
fallback fresh `init` context when no phase ran at all. -/
def LifecycleManager.run (hooks : LifecycleHooks α ε) (initialData : α)
    (opts : LifecycleRunOptions α) :
    Except (LifecycleError ε) (LifecycleContext α × LifecycleState α) :=
  let startIndex := LIFECYCLE_PHASES.indexOf opts.startPhase
  let endIndex := LIFECYCLE_PHASES.indexOf opts.endPhase
  if LIFECYCLE_PHASES.length ≤ startIndex || LIFECYCLE_PHASES.length ≤ endIndex then
    .error (.invalidPhase opts.startPhase opts.endPhase)
  else
    let items := LIFECYCLE_PHASES.enum.filter
      (fun p => decide (startIndex ≤ p.1 ∧ p.1 ≤ endIndex))
    match runLoop hooks items endIndex opts.skipPhases opts.transform opts.meta
        initialData none lifecycleInitial with
    | .error e => .error (.userError e)
    | .ok (last, st) =>
      .ok (last.getD (createLifecycleContext .init initialData opts.meta), st)

/-! Helper lemmas about the association-list map and the membership set. -/

theorem mapHas_mapSet_self (m : List (String × α)) (k : String) (v : α) :
    mapHas (mapSet m k v) k = true := by
  induction m with
  | nil => simp [mapSet, mapHas]
  | cons p tl ih =>
    by_cases hpk : p.1 = k
    · simp [mapSet, mapHas, hpk]
    · simp [mapSet, mapHas, hpk, ih]

theorem mapHas_mapSet_other (m : List (String × α)) (k n : String) (v : α)
    (hne : n ≠ k) : mapHas (mapSet m k v) n = mapHas m n := by
  induction m with
  | nil => simp [mapSet, mapHas, Ne.symm hne]
  | cons p tl ih =>
    by_cases hpk : p.1 = k
    · simp [mapSet, mapHas, hpk, Ne.symm hne]
    · simp [mapSet, mapHas, hpk, ih]

theorem mapLookup_mapSet_self (m : List (String × α)) (k : String) (v : α) :
    mapLookup (mapSet m k v) k = some v := by
  induction m with
  | nil => simp [mapSet, mapLookup]
  | cons p tl ih =>
    by_cases hpk : p.1 = k
    · simp [mapSet, mapLookup, hpk]
    · simp [mapSet, mapLookup, hpk, ih]

theorem mapLookup_mapSet_other (m : List (String × α)) (k n : String) (v : α)
    (hne : n ≠ k) : mapLookup (mapSet m k v) n = mapLookup m n := by
  induction m with
  | nil => simp [mapSet, mapLookup, Ne.symm hne]
  | cons p tl ih =>
    by_cases hpk : p.1 = k
    · simp [mapSet, mapLookup, hpk, Ne.symm hne]
    · simp [mapSet, mapLookup, hpk, ih]

theorem contains_setAdd_self (s : List String) (n : String) :
    (setAdd s n).contains n = true := by
  induction s with
  | nil => simp [setAdd]
  | cons x tl ih =>
    by_cases hxn : x = n
    · simp [setAdd, hxn]
    · rw [setAdd, if_neg (by simpa using hxn), List.contains_cons, ih]
      simp

theorem contains_setAdd_other (s : List String) (n m : String) (hne : m ≠ n) :
    (setAdd s n).contains m = s.contains m := by
  induction s with
  | nil => simp [setAdd, hne]
  | cons x tl ih =>
    by_cases hxn : x = n
    · rw [setAdd, if_pos (by simpa using hxn)]
    · rw [setAdd, if_neg (by simpa using hxn), List.contains_cons, List.contains_cons, ih]

theorem contains_setAdd_mono (s : List String) (n m : String)
    (h : s.contains m = true) : (setAdd s n).contains m = true := by
  by_cases hmn : m = n
  · subst hmn
    exact contains_setAdd_self s m
  · rw [contains_setAdd_other s n m hmn]
    exact h

/-! Lemmas about hook dispatch under the tame-listener discipline. -/

theorem callHook_tame {P : Pipeline α ε} (hP : TameHooks P) (ev : HookEvent α ε)
    (s : EngineState α ε) :
    ∃ s', callHook P ev s = (.ok (), s') ∧
      s'.ctx.stageResults = s.ctx.stageResults ∧
      s'.ctx.skippedStages = s.ctx.skippedStages ∧
      s'.counts = s.counts ∧
      s'.trace = s.trace ++ [ev] := by
  obtain ⟨ctx2, h1, h2, h3⟩ := hP ev s.ctx
  have hch : callHook P ev s =
      (.ok (), { s with trace := s.trace ++ [ev], ctx := ctx2 }) := by
    unfold callHook
    simp only [h1]
  exact ⟨_, hch, h2, h3, rfl, rfl⟩

theorem callHook_tame_ok {P : Pipeline α ε} (hP : TameHooks P)
    {ev : HookEvent α ε} {s : EngineState α ε} {a : Unit} {s1 : EngineState α ε}
    (h : callHook P ev s = (.ok a, s1)) :
    s1.ctx.stageResults = s.ctx.stageResults ∧
    s1.ctx.skippedStages = s.ctx.skippedStages ∧
    s1.counts = s.counts := by
  obtain ⟨s2, heq, h2, h3, h4, _⟩ := callHook_tame hP ev s
  rw [heq] at h
  have h6 : s2 = s1 := congrArg Prod.snd h
  subst h6
  exact ⟨h2, h3, h4⟩

theorem callHook_tame_ne_error {P : Pipeline α ε} (hP : TameHooks P)
    {ev : HookEvent α ε} {s : EngineState α ε} {e : ε} {s1 : EngineState α ε}
    (h : callHook P ev s = (.error e, s1)) : False := by
  obtain ⟨s2, heq, -, -, -, -⟩ := callHook_tame hP ev s
  rw [heq] at h
  exact Except.noConfusion (congrArg Prod.fst h)

/-! Branch equations for `executeStage`: one rewriting lemma per control path,
obtained by a single unfolding of the recursive definition. -/

theorem executeStage_skip_eq {P : Pipeline α ε} {stage : Stage α ε} {input : α}
    {s s1 : EngineState α ε} {a : Unit} (rc : Nat)
    (hcond : conditionPasses stage s.ctx = false)
    (hhook : callHook P (.stageSkip stage.name) s = (.ok a, s1)) :
    executeStage P stage input s rc = (.ok input, addSkip s1 stage.name) := by
  rw [executeStage.eq_def]
  simp [hcond, hhook]

theorem executeStage_unmet_eq {P : Pipeline α ε} {stage : Stage α ε} {input : α}
    {s : EngineState α ε} (rc : Nat)
    (hcond : conditionPasses stage s.ctx = true)
    (hdep : checkDependencies stage s.ctx = false) :
    executeStage P stage input s rc =
      (.error (.unmetDependencies stage.name stage.dependencies), s) := by
  rw [executeStage.eq_def]
  simp [hcond, hdep]

theorem executeStage_success_eq {P : Pipeline α ε} {stage : Stage α ε} {input v : α}
    {s s1 s4 : EngineState α ε} {a a2 : Unit} (rc : Nat)
    (hcond : conditionPasses stage s.ctx = true)
    (hdep : checkDependencies stage s.ctx = true)
    (hhook : callHook P (.stageBefore stage.name) s = (.ok a, s1))
    (hexec : stage.execute rc input (bumpCount s1 stage.name).ctx = .ok v)
    (hafter : callHook P (.stageAfter stage.name v)
        (setResult (bumpCount s1 stage.name) stage.name v) = (.ok a2, s4)) :
    executeStage P stage input s rc = (.ok v, s4) := by
  rw [executeStage.eq_def]
  simp [hcond, hdep, hhook, hexec, hafter]

theorem executeStage_retry_eq {P : Pipeline α ε} {stage : Stage α ε} {input : α}
    {s s1 s5 : EngineState α ε} {a a2 : Unit} {e : ε} (rc : Nat)
    (hcond : conditionPasses stage s.ctx = true)
    (hdep : checkDependencies stage s.ctx = true)
    (hhook : callHook P (.stageBefore stage.name) s = (.ok a, s1))
    (hexec : stage.execute rc input (bumpCount s1 stage.name).ctx = .error e)
    (herr : callHook P (.stageError stage.name e) (bumpCount s1 stage.name) = (.ok a2, s5))
    (hretry : P.options.onError = .retry) (hlt : rc < effMaxRetries P.options) :
    executeStage P stage input s rc = executeStage P stage input s5 (rc + 1) := by
  rw [executeStage.eq_def]
  simp [hcond, hdep, hhook, hexec, herr, hretry, hlt]

theorem executeStage_absorb_eq {P : Pipeline α ε} {stage : Stage α ε} {input : α}
    {s s1 s5 : EngineState α ε} {a a2 : Unit} {e : ε} (rc : Nat)
    (hcond : conditionPasses stage s.ctx = true)
    (hdep : checkDependencies stage s.ctx = true)
    (hhook : callHook P (.stageBefore stage.name) s = (.ok a, s1))
    (hexec : stage.execute rc input (bumpCount s1 stage.name).ctx = .error e)
    (herr : callHook P (.stageError stage.name e) (bumpCount s1 stage.name) = (.ok a2, s5))
    (hnotretry : ¬(P.options.onError = .retry ∧ rc < effMaxRetries P.options))
    (hcont : P.options.onError = .cont) (hskip : stage.skippable = true) :
    executeStage P stage input s rc = (.ok input, addSkip s5 stage.name) := by
  rw [executeStage.eq_def]
  simp [hcond, hdep, hhook, hexec, herr, hnotretry, hcont, hskip]

theorem executeStage_rethrow_eq {P : Pipeline α ε} {stage : Stage α ε} {input : α}
    {s s1 s5 : EngineState α ε} {a a2 : Unit} {e : ε} (rc : Nat)
    (hcond : conditionPasses stage s.ctx = true)
    (hdep : checkDependencies stage s.ctx = true)
    (hhook : callHook P (.stageBefore stage.name) s = (.ok a, s1))
    (hexec : stage.execute rc input (bumpCount s1 stage.name).ctx = .error e)
    (herr : callHook P (.stageError stage.name e) (bumpCount s1 stage.name) = (.ok a2, s5))
    (hnotretry : ¬(P.options.onError = .retry ∧ rc < effMaxRetries P.options))
    (hnotcont : ¬(P.options.onError = .cont ∧ stage.skippable = true)) :
    executeStage P stage input s rc = (.error (.userError e), s5) := by
  rw [executeStage.eq_def]
  simp only [hcond, hdep, hhook, hexec, herr]
  simp [hnotretry, hnotcont]

theorem executeStage_afterErr_absorb_eq {P : Pipeline α ε} {stage : Stage α ε}
    {input v : α} {s s1 s4 s5 : EngineState α ε} {a a2 : Unit} {e : ε} (rc : Nat)
    (hcond : conditionPasses stage s.ctx = true)
    (hdep : checkDependencies stage s.ctx = true)
    (hhook : callHook P (.stageBefore stage.name) s = (.ok a, s1))
    (hexec : stage.execute rc input (bumpCount s1 stage.name).ctx = .ok v)
    (hafter : callHook P (.stageAfter stage.name v)
        (setResult (bumpCount s1 stage.name) stage.name v) = (.error e, s4))
    (herr : callHook P (.stageError stage.name e) s4 = (.ok a2, s5))
    (hnotretry : ¬(P.options.onError = .retry ∧ rc < effMaxRetries P.options))
    (hcont : P.options.onError = .cont) (hskip : stage.skippable = true) :
    executeStage P stage input s rc = (.ok input, addSkip s5 stage.name) := by
  rw [executeStage.eq_def]
  simp [hcond, hdep, hhook, hexec, hafter, herr, hnotretry, hcont, hskip]


theorem bool_eq_true_of_ne_false {b : Bool} (h : ¬ b = false) : b = true := by
  cases b
  · exact absurd rfl h
  · rfl

theorem executeStage_tame_cases {α ε : Type} {P : Pipeline α ε} (hP : TameHooks P)
    (stage : Stage α ε) (input : α) :
    ∀ (s : EngineState α ε) (rc : Nat) (r : Except (PipeError ε) α) (s' : EngineState α ε),
      executeStage P stage input s rc = (r, s') →
      ((∃ e, r = .error e) ∧ s'.ctx.stageResults = s.ctx.stageResults ∧
         s'.ctx.skippedStages = s.ctx.skippedStages)
      ∨ (∃ v, r = .ok v ∧ s'.ctx.stageResults = mapSet s.ctx.stageResults stage.name v ∧
         s'.ctx.skippedStages = s.ctx.skippedStages)
      ∨ (r = .ok input ∧ s'.ctx.stageResults = s.ctx.stageResults ∧
         s'.ctx.skippedStages = setAdd s.ctx.skippedStages stage.name) := by
  intro s rc
  induction s, rc using executeStage.induct P stage input with
  | case1 s rc hcond e s1 hhook =>
    exact (callHook_tame_ne_error hP hhook).elim
  | case2 s rc hcond a s1 hhook =>
    intro r s' heq
    rw [executeStage_skip_eq rc hcond hhook] at heq
    obtain ⟨h2, h3, -⟩ := callHook_tame_ok hP hhook
    rw [show r = Except.ok input from (congrArg Prod.fst heq).symm,
        show s' = addSkip s1 stage.name from (congrArg Prod.snd heq).symm]
    right; right
    refine ⟨rfl, ?_, ?_⟩
    · simpa [addSkip] using h2
    · simp [addSkip, h3]
  | case3 s rc hcond hdep =>
    intro r s' heq
    rw [executeStage_unmet_eq rc (bool_eq_true_of_ne_false hcond) hdep] at heq
    rw [show r = Except.error (.unmetDependencies stage.name stage.dependencies) from
          (congrArg Prod.fst heq).symm,
        show s' = s from (congrArg Prod.snd heq).symm]
    exact Or.inl ⟨⟨_, rfl⟩, rfl, rfl⟩
  | case4 s rc hcond hdep e s1 hhook =>
    exact (callHook_tame_ne_error hP hhook).elim
  | case5 s rc hcond hdep a s1 hhook s2 result hexec s3 a2 s4 hafter =>
    intro r s' heq
    rw [executeStage_success_eq rc (bool_eq_true_of_ne_false hcond)
          (bool_eq_true_of_ne_false hdep) hhook hexec hafter] at heq
    obtain ⟨hb2, hb3, -⟩ := callHook_tame_ok hP hhook
    obtain ⟨ha2, ha3, -⟩ := callHook_tame_ok hP hafter
    rw [show r = Except.ok result from (congrArg Prod.fst heq).symm,
        show s' = s4 from (congrArg Prod.snd heq).symm]
    right; left
    refine ⟨result, rfl, ?_, ?_⟩
    · rw [ha2]
      show (setResult (bumpCount s1 stage.name) stage.name result).ctx.stageResults =
        mapSet s.ctx.stageResults stage.name result
      simp [setResult, bumpCount, hb2]
    · rw [ha3]
      show (setResult (bumpCount s1 stage.name) stage.name result).ctx.skippedStages =
        s.ctx.skippedStages
      simp [setResult, bumpCount, hb3]
  | case6 s rc hcond hdep a s1 hhook s2 result hexec s3 e s4 hafter e2 s5 herr =>
    exact (callHook_tame_ne_error hP hafter).elim
  | case7 s rc hcond hdep a s1 hhook s2 result hexec s3 e s4 hafter a2 s5 herr h ih =>
    exact (callHook_tame_ne_error hP hafter).elim
  | case8 s rc hcond hdep a s1 hhook s2 result hexec s3 e s4 hafter a2 s5 herr h =>
    exact (callHook_tame_ne_error hP hafter).elim
  | case9 s rc hcond hdep a s1 hhook s2 result hexec s3 e s4 hafter a2 s5 herr h h2 =>
    exact (callHook_tame_ne_error hP hafter).elim
  | case10 s rc hcond hdep a s1 hhook s2 e hexec e2 s5 herr =>
    exact (callHook_tame_ne_error hP herr).elim
  | case11 s rc hcond hdep a s1 hhook s2 e hexec a2 s5 herr h ih =>
    intro r s' heq
    rw [executeStage_retry_eq rc (bool_eq_true_of_ne_false hcond)
          (bool_eq_true_of_ne_false hdep) hhook hexec herr h.1 h.2] at heq
    obtain ⟨hb2, hb3, -⟩ := callHook_tame_ok hP hhook
    obtain ⟨he2, he3, -⟩ := callHook_tame_ok hP herr
    have hR : s5.ctx.stageResults = s.ctx.stageResults := by
      rw [he2]
      show (bumpCount s1 stage.name).ctx.stageResults = s.ctx.stageResults
      simp [bumpCount, hb2]
    have hK : s5.ctx.skippedStages = s.ctx.skippedStages := by
      rw [he3]
      show (bumpCount s1 stage.name).ctx.skippedStages = s.ctx.skippedStages
      simp [bumpCount, hb3]
    rcases ih r s' heq with h1 | h1 | h1
    · exact Or.inl ⟨h1.1, by rw [h1.2.1, hR], by rw [h1.2.2, hK]⟩
    · obtain ⟨v, hv, hvr, hvk⟩ := h1
      exact Or.inr (Or.inl ⟨v, hv, by rw [hvr, hR], by rw [hvk, hK]⟩)
    · exact Or.inr (Or.inr ⟨h1.1, by rw [h1.2.1, hR], by rw [h1.2.2, hK]⟩)
  | case12 s rc hcond hdep a s1 hhook s2 e hexec a2 s5 herr h h2 =>
    intro r s' heq
    rw [executeStage_absorb_eq rc (bool_eq_true_of_ne_false hcond)
          (bool_eq_true_of_ne_false hdep) hhook hexec herr h h2.1 h2.2] at heq
    obtain ⟨hb2, hb3, -⟩ := callHook_tame_ok hP hhook
    obtain ⟨he2, he3, -⟩ := callHook_tame_ok hP herr
    rw [show r = Except.ok input from (congrArg Prod.fst heq).symm,
        show s' = addSkip s5 stage.name from (congrArg Prod.snd heq).symm]
    right; right
    refine ⟨rfl, ?_, ?_⟩
    · show (addSkip s5 stage.name).ctx.stageResults = s.ctx.stageResults
      rw [show (addSkip s5 stage.name).ctx.stageResults = s5.ctx.stageResults from rfl, he2]
      show (bumpCount s1 stage.name).ctx.stageResults = s.ctx.stageResults
      simp [bumpCount, hb2]
    · show (addSkip s5 stage.name).ctx.skippedStages = setAdd s.ctx.skippedStages stage.name
      rw [show (addSkip s5 stage.name).ctx.skippedStages =
            setAdd s5.ctx.skippedStages stage.name from rfl, he3]
      show setAdd (bumpCount s1 stage.name).ctx.skippedStages stage.name =
        setAdd s.ctx.skippedStages stage.name
      simp [bumpCount, hb3]
  | case13 s rc hcond hdep a s1 hhook s2 e hexec a2 s5 herr h h2 =>
    intro r s' heq
    rw [executeStage_rethrow_eq rc (bool_eq_true_of_ne_false hcond)
          (bool_eq_true_of_ne_false hdep) hhook hexec herr h h2] at heq
    obtain ⟨hb2, hb3, -⟩ := callHook_tame_ok hP hhook
    obtain ⟨he2, he3, -⟩ := callHook_tame_ok hP herr
    rw [show r = Except.error (.userError e) from (congrArg Prod.fst heq).symm,
        show s' = s5 from (congrArg Prod.snd heq).symm]
    refine Or.inl ⟨⟨_, rfl⟩, ?_, ?_⟩
    · rw [he2]
      show (bumpCount s1 stage.name).ctx.stageResults = s.ctx.stageResults
      simp [bumpCount, hb2]
    · rw [he3]
      show (bumpCount s1 stage.name).ctx.skippedStages = s.ctx.skippedStages
      simp [bumpCount, hb3]


/-! Consequences of the case analysis: frame, monotonicity and preservation of
the exclusivity invariant. -/

theorem executeStage_tame_frame {P : Pipeline α ε} (hP : TameHooks P)
    {stage : Stage α ε} {input : α} {s : EngineState α ε} {rc : Nat}
    {r : Except (PipeError ε) α} {s' : EngineState α ε}
    (heq : executeStage P stage input s rc = (r, s')) :
    ∀ n, ¬(n = stage.name) →
      mapHas s'.ctx.stageResults n = mapHas s.ctx.stageResults n ∧
      mapLookup s'.ctx.stageResults n = mapLookup s.ctx.stageResults n ∧
      s'.ctx.skippedStages.contains n = s.ctx.skippedStages.contains n := by
  intro n hn
  rcases executeStage_tame_cases hP stage input s rc r s' heq with h | h | h
  · rw [h.2.1, h.2.2]
    exact ⟨rfl, rfl, rfl⟩
  · obtain ⟨v, -, hr, hk⟩ := h
    rw [hr, hk]
    exact ⟨mapHas_mapSet_other _ _ _ _ hn, mapLookup_mapSet_other _ _ _ _ hn, rfl⟩
  · rw [h.2.1, h.2.2]
    exact ⟨rfl, rfl, contains_setAdd_other _ _ _ hn⟩

theorem executeStage_skipped_mono {P : Pipeline α ε} (hP : TameHooks P)
    {stage : Stage α ε} {input : α} {s : EngineState α ε} {rc : Nat}
    {r : Except (PipeError ε) α} {s' : EngineState α ε}
    (heq : executeStage P stage input s rc = (r, s')) :
    ∀ n, s.ctx.skippedStages.contains n = true →
      s'.ctx.skippedStages.contains n = true := by
  intro n hn
  rcases executeStage_tame_cases hP stage input s rc r s' heq with h | h | h
  · rw [h.2.2]; exact hn
  · obtain ⟨v, -, -, hk⟩ := h
    rw [hk]; exact hn
  · rw [h.2.2]
    exact contains_setAdd_mono _ _ _ hn

theorem executeStage_exclusive {P : Pipeline α ε} (hP : TameHooks P)
    {stage : Stage α ε} {input : α} {s : EngineState α ε} {rc : Nat}
    {r : Except (PipeError ε) α} {s' : EngineState α ε}
    (heq : executeStage P stage input s rc = (r, s'))
    (hfreshR : mapHas s.ctx.stageResults stage.name = false)
    (hfreshK : s.ctx.skippedStages.contains stage.name = false)
    (hex : Exclusive s.ctx) : Exclusive s'.ctx := by
  intro n
  by_cases hn : n = stage.name
  · subst hn
    rcases executeStage_tame_cases hP stage input s rc r s' heq with h | h | h
    · rw [h.2.1, h.2.2]
      intro hc
      rw [hfreshR] at hc
      exact Bool.noConfusion hc.1
    · obtain ⟨v, -, hr, hk⟩ := h
      rw [hr, hk]
      intro hc
      rw [hfreshK] at hc
      exact Bool.noConfusion hc.2
    · rw [h.2.1, h.2.2]
      intro hc
      rw [hfreshR] at hc
      exact Bool.noConfusion hc.1
  · obtain ⟨hR, -, hK⟩ := executeStage_tame_frame hP heq n hn
    rw [hR, hK]
    exact hex n

/-- Sequential mode preserves the exclusivity invariant: induction along the
stage list, using per-stage preservation and the frame property. -/
theorem executeSequential_exclusive {P : Pipeline α ε} (hP : TameHooks P) :
    ∀ (rest : List (Stage α ε)) (i : Nat) (input : α) (s : EngineState α ε)
      (r : Except (PipeError ε) α) (s' : EngineState α ε),
      executeSequential P rest i input s = (r, s') →
      (∀ st ∈ rest, mapHas s.ctx.stageResults st.name = false ∧
        s.ctx.skippedStages.contains st.name = false) →
      (rest.map Stage.name).Nodup →
      Exclusive s.ctx → Exclusive s'.ctx := by
  intro rest
  induction rest with
  | nil =>
    intro i input s r s' heq hfresh hnodup hex
    unfold executeSequential at heq
    rw [show s' = s from (congrArg Prod.snd heq).symm]
    exact hex
  | cons stage tl ih =>
    intro i input s r s' heq hfresh hnodup hex
    unfold executeSequential at heq
    by_cases hab : s.ctx.aborted = true
    · rw [if_pos hab] at heq
      rw [show s' = s from (congrArg Prod.snd heq).symm]
      exact hex
    · rw [if_neg hab] at heq
      set s0 : EngineState α ε :=
        { s with ctx := { s.ctx with currentStageIndex := i } } with hs0
      have hctx0R : s0.ctx.stageResults = s.ctx.stageResults := rfl
      have hctx0K : s0.ctx.skippedStages = s.ctx.skippedStages := rfl
      rcases hstep : executeStage P stage input s0 0 with ⟨r1, s1⟩
      have hex0 : Exclusive s0.ctx := by
        intro n
        rw [hctx0R, hctx0K]
        exact hex n
      have hfresh0 : mapHas s0.ctx.stageResults stage.name = false ∧
          s0.ctx.skippedStages.contains stage.name = false := by
        rw [hctx0R, hctx0K]
        exact hfresh stage (List.mem_cons_self _ _)
      have hex1 : Exclusive s1.ctx :=
        executeStage_exclusive hP hstep hfresh0.1 hfresh0.2 hex0
      cases r1 with
      | error e =>
        simp only [hstep] at heq
        rw [show s' = s1 from (congrArg Prod.snd heq).symm]
        exact hex1
      | ok out =>
        simp only [hstep] at heq
        have hnotin : stage.name ∉ tl.map Stage.name := by
          have := hnodup
          simp only [List.map_cons, List.nodup_cons] at this
          exact this.1
        refine ih (i + 1) out s1 r s' heq ?_ ?_ hex1
        · intro st hst
          have hne : ¬(st.name = stage.name) := by
            intro hcon
            exact hnotin (hcon ▸ List.mem_map_of_mem Stage.name hst)
          obtain ⟨hR, -, hK⟩ := executeStage_tame_frame hP hstep st.name hne
          rw [hR, hK, hctx0R, hctx0K]
          exact hfresh st (List.mem_cons_of_mem _ hst)
        · have := hnodup
          simp only [List.map_cons, List.nodup_cons] at this
          exact this.2

/-- One wave preserves the exclusivity invariant and leaves every name that
does not belong to the wave untouched. -/
theorem runWave_tame {P : Pipeline α ε} (hP : TameHooks P) :
    ∀ (wave : List (Stage α ε)) (input : α) (s : EngineState α ε)
      (r : Except (PipeError ε) (List α)) (s' : EngineState α ε),
      runWave P wave input s = (r, s') →
      (∀ st ∈ wave, mapHas s.ctx.stageResults st.name = false ∧
        s.ctx.skippedStages.contains st.name = false) →
      (wave.map Stage.name).Nodup → Exclusive s.ctx →
      Exclusive s'.ctx ∧
      (∀ n, (∀ st ∈ wave, ¬(st.name = n)) →
        mapHas s'.ctx.stageResults n = mapHas s.ctx.stageResults n ∧
        s'.ctx.skippedStages.contains n = s.ctx.skippedStages.contains n) := by
  intro wave
  induction wave with
  | nil =>
    intro input s r s' heq hfresh hnodup hex
    unfold runWave at heq
    rw [show s' = s from (congrArg Prod.snd heq).symm]
    exact ⟨hex, fun n _ => ⟨rfl, rfl⟩⟩
  | cons stage tl ih =>
    intro input s r s' heq hfresh hnodup hex
    unfold runWave at heq
    rcases hstep : executeStage P stage input s 0 with ⟨r1, s1⟩
    have hfr := hfresh stage (List.mem_cons_self _ _)
    have hex1 : Exclusive s1.ctx :=
      executeStage_exclusive hP hstep hfr.1 hfr.2 hex
    have hnotin : stage.name ∉ tl.map Stage.name := by
      have := hnodup
      simp only [List.map_cons, List.nodup_cons] at this
      exact this.1
    have htlfresh : ∀ st ∈ tl, mapHas s1.ctx.stageResults st.name = false ∧
        s1.ctx.skippedStages.contains st.name = false := by
      intro st hst
      have hne : ¬(st.name = stage.name) := by
        intro hcon
        exact hnotin (hcon ▸ List.mem_map_of_mem Stage.name hst)
      obtain ⟨hR, -, hK⟩ := executeStage_tame_frame hP hstep st.name hne
      rw [hR, hK]
      exact hfresh st (List.mem_cons_of_mem _ hst)
    cases r1 with
    | error e =>
      simp only [hstep] at heq
      rw [show s' = s1 from (congrArg Prod.snd heq).symm]
      refine ⟨hex1, ?_⟩
      intro n hn
      have hne : ¬(n = stage.name) := fun hc => hn stage (List.mem_cons_self _ _) hc.symm
      obtain ⟨hR, -, hK⟩ := executeStage_tame_frame hP hstep n hne
      exact ⟨hR, hK⟩
    | ok v =>
      rcases hrest : runWave P tl input s1 with ⟨r2, s2⟩
      have htlnodup : (tl.map Stage.name).Nodup := by
        have := hnodup
        simp only [List.map_cons, List.nodup_cons] at this
        exact this.2
      obtain ⟨hex2, hframe2⟩ := ih input s1 r2 s2 hrest htlfresh htlnodup hex1
      have hs' : s' = s2 := by
        simp only [hstep, hrest] at heq
        cases r2 with
        | error e => exact (congrArg Prod.snd heq).symm
        | ok rs => exact (congrArg Prod.snd heq).symm
      rw [hs']
      refine ⟨hex2, ?_⟩
      intro n hn
      have hne : ¬(n = stage.name) := fun hc => hn stage (List.mem_cons_self _ _) hc.symm
      obtain ⟨hR1, -, hK1⟩ := executeStage_tame_frame hP hstep n hne
      obtain ⟨hR2, hK2⟩ := hframe2 n (fun st hst => hn st (List.mem_cons_of_mem _ hst))
      exact ⟨hR2.trans hR1, hK2.trans hK1⟩

/-! Branch equations for the parallel wave loop. -/

theorem executeParallelLoop_nil_eq {P : Pipeline α ε} {pending : List String}
    {input : α} {s : EngineState α ε} (h : pending.isEmpty = true) :
    executeParallelLoop P pending input s = (.ok input, s) := by
  rw [executeParallelLoop.eq_def]
  simp [h]

theorem executeParallelLoop_circular_eq {P : Pipeline α ε} {pending : List String}
    {input : α} {s : EngineState α ε} (h1 : pending.isEmpty = false)
    (h2 : (executableStages P pending s.ctx).isEmpty = true) :
    executeParallelLoop P pending input s = (.error .circularDependency, s) := by
  rw [executeParallelLoop.eq_def]
  simp [h1, h2]

theorem executeParallelLoop_waveError_eq {P : Pipeline α ε} {pending : List String}
    {input : α} {s s1 : EngineState α ε} {e : PipeError ε}
    (h1 : pending.isEmpty = false)
    (h2 : (executableStages P pending s.ctx).isEmpty = false)
    (h3 : runWave P (executableStages P pending s.ctx) input s = (.error e, s1)) :
    executeParallelLoop P pending input s = (.error e, s1) := by
  rw [executeParallelLoop.eq_def]
  simp [h1, h2, h3]

theorem executeParallelLoop_waveAborted_eq {P : Pipeline α ε} {pending : List String}
    {input : α} {s s1 : EngineState α ε} {results : List α}
    (h1 : pending.isEmpty = false)
    (h2 : (executableStages P pending s.ctx).isEmpty = false)
    (h3 : runWave P (executableStages P pending s.ctx) input s = (.ok results, s1))
    (h4 : s1.ctx.aborted = true) :
    executeParallelLoop P pending input s = (.ok (results.getLastD input), s1) := by
  rw [executeParallelLoop.eq_def]
  simp [h1, h2, h3, h4]

theorem executeParallelLoop_waveStep_eq {P : Pipeline α ε} {pending : List String}
    {input : α} {s s1 : EngineState α ε} {results : List α}
    (h1 : pending.isEmpty = false)
    (h2 : (executableStages P pending s.ctx).isEmpty = false)
    (h3 : runWave P (executableStages P pending s.ctx) input s = (.ok results, s1))
    (h4 : s1.ctx.aborted = false) :
    executeParallelLoop P pending input s =
      executeParallelLoop P (removeWave pending (executableStages P pending s.ctx))
        (results.getLastD input) s1 := by
  rw [executeParallelLoop.eq_def]
  simp [h1, h2, h3, h4]

theorem bool_eq_false_of_ne_true {b : Bool} (h : ¬ b = true) : b = false := by
  cases b
  · rfl
  · exact absurd rfl h

/-- The names of the eligible wave form a duplicate-free list whenever the
pipeline's stage names do. -/
theorem waveNodup (P : Pipeline α ε) (pending : List String) (ctx : PipelineContext α)
    (hnodup : (P.stages.map Stage.name).Nodup) :
    ((executableStages P pending ctx).map Stage.name).Nodup :=
  ((List.filter_sublist _).map Stage.name).nodup hnodup

/-- Freshness of all pending names restricts to the eligible wave. -/
theorem waveFresh_of_pendingFresh (P : Pipeline α ε) (pending : List String)
    (s : EngineState α ε)
    (hfresh : ∀ st ∈ P.stages, pending.contains st.name = true →
      mapHas s.ctx.stageResults st.name = false ∧
      s.ctx.skippedStages.contains st.name = false) :
    ∀ st ∈ executableStages P pending s.ctx,
      mapHas s.ctx.stageResults st.name = false ∧
      s.ctx.skippedStages.contains st.name = false := by
  intro st hst
  have hmem := List.mem_filter.mp hst
  exact hfresh st hmem.1 ((Bool.and_eq_true _ _).mp hmem.2).1

theorem executeParallelLoop_exclusive {α ε : Type} {P : Pipeline α ε} (hP : TameHooks P)
    (hnodup : (P.stages.map Stage.name).Nodup) :
    ∀ (pending : List String) (input : α) (s : EngineState α ε)
      (r : Except (PipeError ε) α) (s' : EngineState α ε),
      executeParallelLoop P pending input s = (r, s') →
      (∀ st ∈ P.stages, pending.contains st.name = true →
        mapHas s.ctx.stageResults st.name = false ∧
        s.ctx.skippedStages.contains st.name = false) →
      Exclusive s.ctx → Exclusive s'.ctx := by
  intro pending input s
  induction pending, input, s using executeParallelLoop.induct P with
  | case1 pending input s hp =>
    intro r s' heq hfresh hex
    rw [executeParallelLoop_nil_eq (by simpa using hp)] at heq
    rw [show s' = s from (congrArg Prod.snd heq).symm]
    exact hex
  | case2 pending input s hp ex hx =>
    intro r s' heq hfresh hex
    rw [executeParallelLoop_circular_eq (bool_eq_false_of_ne_true hp) hx] at heq
    rw [show s' = s from (congrArg Prod.snd heq).symm]
    exact hex
  | case3 pending input s hp ex hx e s1 hwave =>
    intro r s' heq hfresh hex
    rw [executeParallelLoop_waveError_eq (bool_eq_false_of_ne_true hp)
          (bool_eq_false_of_ne_true hx) hwave] at heq
    rw [show s' = s1 from (congrArg Prod.snd heq).symm]
    exact (runWave_tame hP _ input s _ s1 hwave
      (waveFresh_of_pendingFresh P pending s hfresh)
      (waveNodup P pending s.ctx hnodup) hex).1
  | case4 pending input s hp ex hx results s1 hwave hab =>
    intro r s' heq hfresh hex
    rw [executeParallelLoop_waveAborted_eq (bool_eq_false_of_ne_true hp)
          (bool_eq_false_of_ne_true hx) hwave hab] at heq
    rw [show s' = s1 from (congrArg Prod.snd heq).symm]
    exact (runWave_tame hP _ input s _ s1 hwave
      (waveFresh_of_pendingFresh P pending s hfresh)
      (waveNodup P pending s.ctx hnodup) hex).1
  | case5 pending input s hp ex hx results s1 hwave nextInput pending2 hab ih =>
    intro r s' heq hfresh hex
    rw [executeParallelLoop_waveStep_eq (bool_eq_false_of_ne_true hp)
          (bool_eq_false_of_ne_true hx) hwave (bool_eq_false_of_ne_true hab)] at heq
    obtain hWT := runWave_tame hP _ input s _ s1 hwave
      (waveFresh_of_pendingFresh P pending s hfresh)
      (waveNodup P pending s.ctx hnodup) hex
    refine ih r s' heq ?_ hWT.1
    intro st hst hpend2
    have hmem2 : st.name ∈ pending ∧
        (!((executableStages P pending s.ctx).any
          (fun st3 => st3.name == st.name))) = true := by
      have h0 : st.name ∈ removeWave pending (executableStages P pending s.ctx) := by
        simpa using hpend2
      exact List.mem_filter.mp h0
    have hnoteq : ∀ st2 ∈ executableStages P pending s.ctx, ¬(st2.name = st.name) := by
      intro st2 hst2 hcon
      have hany : (executableStages P pending s.ctx).any
          (fun st3 => st3.name == st.name) = true :=
        List.any_eq_true.mpr ⟨st2, hst2, by simp [hcon]⟩
      rw [hany] at hmem2
      simp at hmem2
    obtain ⟨hR, hK⟩ := hWT.2 st.name hnoteq
    rw [hR, hK]
    exact hfresh st hst (by simpa using hmem2.1)

/-- Dispatching a hook on a bus with no listeners only records the event. -/
theorem callHook_noListeners {P : Pipeline α ε} (h : P.hooks = noListeners)
    (ev : HookEvent α ε) (s : EngineState α ε) :
    callHook P ev s = (.ok (), { s with trace := s.trace ++ [ev] }) := by
  simp [callHook, h, noListeners]

/-- C1 (corrected): during a pipeline `execute` call whose hook listeners never
throw and never write the engine-owned collections, and whose stage names are
pairwise distinct, a stage name appears in at most one of completed
`stageResults` and skipped `skippedStages` — in both sequential and parallel
mode, across condition-skips, success recording, error absorption under the
continue policy, and retries.  (The unrestricted claim fails when a
`pipeline:stage:after` listener throws: see the counterexample.) -/
theorem C1_exclusive_invariant (P : Pipeline α ε) (input : α)
    (hP : TameHooks P) (hnodup : (P.stages.map Stage.name).Nodup) :
    Exclusive (Pipeline.execute P input).2.ctx := by
  obtain ⟨s1, hstart, hR1, hK1, -, -⟩ :=
    callHook_tame hP .pipelineStart (initialState P.options.name)
  have hex1 : Exclusive s1.ctx := by
    intro n hc
    rw [hR1] at hc
    exact Bool.noConfusion hc.1
  rcases hbody : (if P.options.parallel then executeParallel P input s1
      else executeSequential P P.stages 0 input s1) with ⟨r2, s2⟩
  have hfresh1 : ∀ st ∈ P.stages, mapHas s1.ctx.stageResults st.name = false ∧
      s1.ctx.skippedStages.contains st.name = false := by
    intro st _
    rw [hR1, hK1]
    exact ⟨rfl, rfl⟩
  have hex2 : Exclusive s2.ctx := by
    cases hpar : P.options.parallel with
    | false =>
      rw [hpar, if_neg (by simp)] at hbody
      exact executeSequential_exclusive hP P.stages 0 input s1 r2 s2 hbody
        hfresh1 hnodup hex1
    | true =>
      rw [hpar, if_pos rfl] at hbody
      unfold executeParallel at hbody
      refine executeParallelLoop_exclusive hP hnodup _ input s1 r2 s2 hbody ?_ hex1
      intro st hst _
      exact hfresh1 st hst
  simp only [Pipeline.execute, hstart, hbody]
  cases r2 with
  | error e =>
    exact fun n hc => hex2 n hc
  | ok result =>
    obtain ⟨s3, hend, hR3, hK3, -, -⟩ := callHook_tame hP .pipelineEnd s2
    simp only [hend]
    intro n hc
    rw [hR3, hK3] at hc
    exact hex2 n hc

/-- C1 witness: the invariant theorem applied to a concrete one-stage pipeline
with a listener-free bus. -/
theorem C1_exclusive_invariant_witness :
    let P : Pipeline Nat Unit :=
      { stages := [{ name := "a", execute := fun _ x _ => .ok (x + 1),
                     dependencies := [], condition := none, skippable := false }],
        options := { name := "p", parallel := false, onError := .stop,
                     maxRetries := none },
        hooks := noListeners }
    TameHooks P ∧ ((P.stages.map Stage.name).Nodup) ∧
      Exclusive (Pipeline.execute P 0).2.ctx := by
  intro P
  exact ⟨fun ev ctx => ⟨ctx, rfl, rfl, rfl⟩, by simp,
    C1_exclusive_invariant P 0 (fun ev ctx => ⟨ctx, rfl, rfl, rfl⟩) (by simp)⟩

/-- C1 counterexample: with `onError = continue` on a skippable stage whose
body succeeds, a `pipeline:stage:after` listener that throws drives the catch
block into the absorb branch after the result was already recorded, leaving
the stage name both completed in `stageResults` and skipped in
`skippedStages`. -/
theorem C1_counterexample :
    let P : Pipeline Nat Unit :=
      { stages := [{ name := "a", execute := fun _ x _ => .ok x,
                     dependencies := [], condition := none, skippable := true }],
        options := { name := "p", parallel := false, onError := .cont,
                     maxRetries := none },
        hooks := fun ev ctx => match ev with
          | .stageAfter _ _ => .error ()
          | _ => .ok ctx }
    mapHas (Pipeline.execute P 0).2.ctx.stageResults "a" = true ∧
    (Pipeline.execute P 0).2.ctx.skippedStages.contains "a" = true := by
  intro P
  have h1 : executeStage P
      { name := "a", execute := fun _ x _ => .ok x,
        dependencies := [], condition := none, skippable := true } 0
      { ctx := { pipelineName := "p", currentStageIndex := 0, stageResults := [],
                 shared := [], aborted := false, skippedStages := [] },
        trace := [HookEvent.pipelineStart], counts := fun _ => 0 } 0 =
      (.ok 0, addSkip
       { ctx := { pipelineName := "p", currentStageIndex := 0,
                  stageResults := [("a", 0)], shared := [], aborted := false,
                  skippedStages := [] },
         trace := [HookEvent.pipelineStart, HookEvent.stageBefore "a",
           HookEvent.stageAfter "a" 0, HookEvent.stageError "a" ()],
         counts := fun n => if n = "a" then 1 else 0 } "a") := by
    refine executeStage_afterErr_absorb_eq 0 rfl rfl rfl rfl rfl rfl ?_ rfl rfl
    simp
  simp [Pipeline.execute, executeSequential, callHook, initialState,
    createPipelineContext, P, h1, mapHas, addSkip, setAdd]

/-- C7: a false condition is decided before the dependency check; the stage is
recorded skipped, its body is never invoked, no unmet-dependency error can
arise however unsatisfied its declared dependencies are, and the chained
value passes through unchanged. -/
theorem C7_condition_skip {P : Pipeline α ε} (hP : TameHooks P)
    (st : Stage α ε) (cond : PipelineContext α → Bool) (input : α)
    (s : EngineState α ε) (rc : Nat)
    (hcond : st.condition = some cond) (hfalse : cond s.ctx = false) :
    (executeStage P st input s rc).1 = .ok input ∧
    (executeStage P st input s rc).2.ctx.skippedStages =
      setAdd s.ctx.skippedStages st.name ∧
    (executeStage P st input s rc).2.ctx.stageResults = s.ctx.stageResults ∧
    (executeStage P st input s rc).2.counts = s.counts := by
  have hcp : conditionPasses st s.ctx = false := by
    simp [conditionPasses, hcond, hfalse]
  obtain ⟨s1, hskip, hR1, hK1, hc1, -⟩ := callHook_tame hP (.stageSkip st.name) s
  rw [executeStage_skip_eq rc hcp hskip]
  exact ⟨rfl, by simp [addSkip, hK1], by simp [addSkip, hR1], by simp [addSkip, hc1]⟩

/-- C7 witness: the condition-skip theorem applied to a concrete stage with an
unsatisfiable dependency list and an always-false condition. -/
theorem C7_condition_skip_witness :
    let P : Pipeline Nat Unit :=
      { stages := []
        options := { name := "p", parallel := false, onError := .stop,
                     maxRetries := none }
        hooks := noListeners }
    let st : Stage Nat Unit :=
      { name := "a", execute := fun _ x _ => .ok (x + 1),
        dependencies := ["missing"], condition := some (fun _ => false),
        skippable := false }
    let s : EngineState Nat Unit := initialState "p"
    TameHooks P ∧ st.condition = some (fun _ => false) ∧
      ((fun (_ : PipelineContext Nat) => false) s.ctx = false) ∧
      ((executeStage P st 7 s 0).1 = .ok 7 ∧
       (executeStage P st 7 s 0).2.ctx.skippedStages =
         setAdd s.ctx.skippedStages st.name ∧
       (executeStage P st 7 s 0).2.ctx.stageResults = s.ctx.stageResults ∧
       (executeStage P st 7 s 0).2.counts = s.counts) := by
  intro P st s
  exact ⟨fun ev ctx => ⟨ctx, rfl, rfl, rfl⟩, rfl, rfl,
    C7_condition_skip (fun ev ctx => ⟨ctx, rfl, rfl, rfl⟩) st (fun _ => false)
      7 s 0 rfl rfl⟩


/-- C4: a stage whose condition passes but whose declared dependencies are not
all present fails immediately with the unmet-dependencies error carrying the
stage name and its dependency list (which includes every missing name), the
stage body is never invoked (the state, counts included, is returned
untouched), and on a one-stage pipeline the failure propagates out of
`execute` for every error policy and skippable flag. -/
theorem C4_unmet_dependencies_fatal (P : Pipeline α ε) (st : Stage α ε)
    (input : α) (s : EngineState α ε) (rc : Nat)
    (hcond : conditionPasses st s.ctx = true)
    (hdep : checkDependencies st s.ctx = false) :
    executeStage P st input s rc =
      (.error (.unmetDependencies st.name st.dependencies), s) ∧
    (∃ d ∈ st.dependencies, mapHas s.ctx.stageResults d = false ∧
      s.ctx.skippedStages.contains d = false) ∧
    (∀ P2 : Pipeline α ε, P2.stages = [st] → P2.options.parallel = false →
      P2.hooks = noListeners → st.condition = none → st.dependencies ≠ [] →
      (Pipeline.execute P2 input).1 =
        .error (.unmetDependencies st.name st.dependencies) ∧
      (Pipeline.execute P2 input).2.counts st.name = 0) := by
  refine ⟨executeStage_unmet_eq rc hcond hdep, ?_, ?_⟩
  · unfold checkDependencies at hdep
    by_cases hne : st.dependencies.isEmpty
    · rw [if_pos hne] at hdep
      exact Bool.noConfusion hdep
    · rw [if_neg hne] at hdep
      obtain ⟨d, hd, hpd⟩ := List.all_eq_false.mp hdep
      refine ⟨d, hd, ?_, ?_⟩
      · cases hx : mapHas s.ctx.stageResults d
        · rfl
        · exact absurd (by rw [hx, Bool.true_or]) hpd
      · cases hx : s.ctx.skippedStages.contains d
        · rfl
        · exact absurd (by rw [hx, Bool.or_true]) hpd
  · intro P2 h2s h2par h2hooks hcondnone hdepne
    have hstart : callHook P2 HookEvent.pipelineStart
        { ctx := { pipelineName := P2.options.name, currentStageIndex := 0,
                   stageResults := [], shared := [], aborted := false,
                   skippedStages := [] },
          trace := [], counts := fun _ => 0 } =
        (.ok (),
         { ctx := { pipelineName := P2.options.name, currentStageIndex := 0,
                    stageResults := [], shared := [], aborted := false,
                    skippedStages := [] },
           trace := [HookEvent.pipelineStart], counts := fun _ => 0 }) :=
      callHook_noListeners h2hooks HookEvent.pipelineStart _
    have hcp2 : ∀ ctx : PipelineContext α, conditionPasses st ctx = true := by
      intro ctx
      simp [conditionPasses, hcondnone]
    have hcd2 : checkDependencies st
        (createPipelineContext P2.options.name : PipelineContext α) = false := by
      obtain ⟨d, hd⟩ := List.exists_mem_of_ne_nil _ hdepne
      unfold checkDependencies
      rw [if_neg (by simp [hdepne])]
      exact List.all_eq_false.mpr ⟨d, hd, by simp [mapHas, createPipelineContext]⟩
    have hstep : executeStage P2 st input
        { ctx := { pipelineName := P2.options.name, currentStageIndex := 0,
                   stageResults := [], shared := [], aborted := false,
                   skippedStages := [] },
          trace := [HookEvent.pipelineStart], counts := fun _ => 0 } 0 =
        (.error (.unmetDependencies st.name st.dependencies),
         { ctx := { pipelineName := P2.options.name, currentStageIndex := 0,
                    stageResults := [], shared := [], aborted := false,
                    skippedStages := [] },
           trace := [HookEvent.pipelineStart], counts := fun _ => 0 }) :=
      executeStage_unmet_eq 0 (hcp2 _) hcd2
    have hmain : Pipeline.execute P2 input =
        (.error (.unmetDependencies st.name st.dependencies),
         { ctx := { pipelineName := P2.options.name, currentStageIndex := 0,
                    stageResults := [], shared := [], aborted := true,
                    skippedStages := [] },
           trace := [HookEvent.pipelineStart], counts := fun _ => 0 }) := by
      simp [Pipeline.execute, hstart, h2s, h2par, executeSequential, initialState,
        createPipelineContext, hstep]
    rw [hmain]
    exact ⟨rfl, rfl⟩

/-- C4 witness: the unmet-dependencies theorem applied to a concrete stage with
one never-satisfied dependency, from the fresh initial state. -/
theorem C4_unmet_dependencies_fatal_witness :
    let P : Pipeline Nat Unit :=
      { stages := []
        options := { name := "p", parallel := false, onError := .stop,
                     maxRetries := none }
        hooks := noListeners }
    let st : Stage Nat Unit :=
      { name := "a", execute := fun _ x _ => .ok x,
        dependencies := ["d"], condition := none, skippable := false }
    let s : EngineState Nat Unit := initialState "p"
    conditionPasses st s.ctx = true ∧ checkDependencies st s.ctx = false ∧
      (executeStage P st 5 s 0 =
        (.error (.unmetDependencies st.name st.dependencies), s) ∧
      (∃ d ∈ st.dependencies, mapHas s.ctx.stageResults d = false ∧
        s.ctx.skippedStages.contains d = false) ∧
      (∀ P2 : Pipeline Nat Unit, P2.stages = [st] → P2.options.parallel = false →
        P2.hooks = noListeners → st.condition = none → st.dependencies ≠ [] →
        (Pipeline.execute P2 5).1 =
          .error (.unmetDependencies st.name st.dependencies) ∧
        (Pipeline.execute P2 5).2.counts st.name = 0)) := by
  intro P st s
  exact ⟨rfl, rfl, C4_unmet_dependencies_fatal P st 5 s 0 rfl rfl⟩

end Nexo
namespace Nexo

/-- C6: a parallel pipeline of two mutually dependent stages fails with the
circular-dependency error, neither stage body is ever invoked, and that error
is distinct from every per-stage unmet-dependencies error. -/
theorem C6_circular_dependency (P : Pipeline α ε) (A B : Stage α ε) (input : α)
    (hstages : P.stages = [A, B]) (hpar : P.options.parallel = true)
    (hdepA : A.dependencies = [B.name]) (hdepB : B.dependencies = [A.name])
    (hP : TameHooks P) :
    (Pipeline.execute P input).1 = .error .circularDependency ∧
    (Pipeline.execute P input).2.counts A.name = 0 ∧
    (Pipeline.execute P input).2.counts B.name = 0 ∧
    (∀ n ds, (PipeError.circularDependency : PipeError ε) ≠
      .unmetDependencies n ds) := by
  obtain ⟨s1, hstart, hR1, hK1, hc1, -⟩ :=
    callHook_tame hP .pipelineStart (initialState P.options.name)
  have hR1x : s1.ctx.stageResults = [] := hR1
  have hK1x : s1.ctx.skippedStages = [] := hK1
  have hc1x : s1.counts = fun _ => 0 := hc1
  have hcheckA : checkDependencies A s1.ctx = false := by
    unfold checkDependencies
    rw [hdepA]
    simp [hR1x, hK1x, mapHas]
  have hcheckB : checkDependencies B s1.ctx = false := by
    unfold checkDependencies
    rw [hdepB]
    simp [hR1x, hK1x, mapHas]
  have hexec : (executableStages P (P.stages.map Stage.name) s1.ctx).isEmpty = true := by
    unfold executableStages
    rw [hstages]
    simp [List.filter, hcheckA, hcheckB]
  have hpending : (P.stages.map Stage.name).isEmpty = false := by
    rw [hstages]
    rfl
  have hloop : executeParallelLoop P (P.stages.map Stage.name) input s1 =
      (.error .circularDependency, s1) :=
    executeParallelLoop_circular_eq hpending hexec
  have hmain : Pipeline.execute P input =
      (.error .circularDependency, { s1 with ctx := { s1.ctx with aborted := true } }) := by
    simp [Pipeline.execute, hstart, hpar, executeParallel, hloop]
  rw [hmain]
  refine ⟨rfl, ?_, ?_, ?_⟩
  · show s1.counts A.name = 0
    rw [hc1x]
  · show s1.counts B.name = 0
    rw [hc1x]
  · intro n ds hcon
    exact PipeError.noConfusion hcon

/-- C6 witness: two concrete mutually dependent stages in parallel mode. -/
theorem C6_circular_dependency_witness :
    let A : Stage Nat Unit :=
      { name := "a", execute := fun _ x _ => .ok x,
        dependencies := ["b"], condition := none, skippable := false }
    let B : Stage Nat Unit :=
      { name := "b", execute := fun _ x _ => .ok x,
        dependencies := ["a"], condition := none, skippable := false }
    let P : Pipeline Nat Unit :=
      { stages := [A, B]
        options := { name := "p", parallel := true, onError := .stop,
                     maxRetries := none }
        hooks := noListeners }
    P.stages = [A, B] ∧ P.options.parallel = true ∧
      A.dependencies = [B.name] ∧ B.dependencies = [A.name] ∧ TameHooks P ∧
      ((Pipeline.execute P 3).1 = .error .circularDependency ∧
       (Pipeline.execute P 3).2.counts A.name = 0 ∧
       (Pipeline.execute P 3).2.counts B.name = 0 ∧
       (∀ n ds, (PipeError.circularDependency : PipeError Unit) ≠
         .unmetDependencies n ds)) := by
  intro A B P
  exact ⟨rfl, rfl, rfl, rfl, fun ev ctx => ⟨ctx, rfl, rfl, rfl⟩,
    C6_circular_dependency P A B 3 rfl rfl rfl rfl
      (fun ev ctx => ⟨ctx, rfl, rfl, rfl⟩)⟩

/-- C10: a pipeline with no stages succeeds in either mode, dispatches exactly
`pipeline:start` and `pipeline:end`, returns the input unchanged, and its
final context has empty `stageResults` and `skippedStages` and a clear
aborted flag. -/
theorem C10_empty_pipeline (P : Pipeline α ε) (input : α)
    (hstages : P.stages = []) (hhooks : P.hooks = noListeners) :
    (Pipeline.execute P input).1 = .ok input ∧
    (Pipeline.execute P input).2.trace =
      [HookEvent.pipelineStart, HookEvent.pipelineEnd] ∧
    (Pipeline.execute P input).2.ctx.stageResults = [] ∧
    (Pipeline.execute P input).2.ctx.skippedStages = [] ∧
    (Pipeline.execute P input).2.ctx.aborted = false := by
  have hstart : callHook P HookEvent.pipelineStart
      { ctx := { pipelineName := P.options.name, currentStageIndex := 0,
                 stageResults := [], shared := [], aborted := false,
                 skippedStages := [] },
        trace := [], counts := fun _ => 0 } =
      (.ok (),
       { ctx := { pipelineName := P.options.name, currentStageIndex := 0,
                  stageResults := [], shared := [], aborted := false,
                  skippedStages := [] },
         trace := [HookEvent.pipelineStart], counts := fun _ => 0 }) :=
    callHook_noListeners hhooks HookEvent.pipelineStart _
  have hend : callHook P HookEvent.pipelineEnd
      { ctx := { pipelineName := P.options.name, currentStageIndex := 0,
                 stageResults := [], shared := [], aborted := false,
                 skippedStages := [] },
        trace := [HookEvent.pipelineStart], counts := fun _ => 0 } =
      (.ok (),
       { ctx := { pipelineName := P.options.name, currentStageIndex := 0,
                  stageResults := [], shared := [], aborted := false,
                  skippedStages := [] },
         trace := [HookEvent.pipelineStart, HookEvent.pipelineEnd],
         counts := fun _ => 0 }) :=
    callHook_noListeners hhooks HookEvent.pipelineEnd _
  have hploop : executeParallelLoop P ([] : List String) input
      { ctx := { pipelineName := P.options.name, currentStageIndex := 0,
                 stageResults := [], shared := [], aborted := false,
                 skippedStages := [] },
        trace := [HookEvent.pipelineStart], counts := fun _ => 0 } =
      (.ok input,
       { ctx := { pipelineName := P.options.name, currentStageIndex := 0,
                  stageResults := [], shared := [], aborted := false,
                  skippedStages := [] },
         trace := [HookEvent.pipelineStart], counts := fun _ => 0 }) :=
    executeParallelLoop_nil_eq rfl
  have hmain : Pipeline.execute P input =
      (.ok input,
       { ctx := { pipelineName := P.options.name, currentStageIndex := 0,
                  stageResults := [], shared := [], aborted := false,
                  skippedStages := [] },
         trace := [HookEvent.pipelineStart, HookEvent.pipelineEnd],
         counts := fun _ => 0 }) := by
    cases hpar : P.options.parallel with
    | false =>
      simp [Pipeline.execute, initialState, createPipelineContext, hstart, hpar,
        hstages, executeSequential, hend]
    | true =>
      simp [Pipeline.execute, initialState, createPipelineContext, hstart, hpar,
        hstages, executeParallel, hploop, hend]
  rw [hmain]
  exact ⟨rfl, rfl, rfl, rfl, rfl⟩

/-- C10 witness: a concrete empty pipeline with a listener-free bus. -/
theorem C10_empty_pipeline_witness :
    let P : Pipeline Nat Unit :=
      { stages := []
        options := { name := "p", parallel := true, onError := .stop,
                     maxRetries := none }
        hooks := noListeners }
    P.stages = [] ∧ P.hooks = noListeners ∧
      ((Pipeline.execute P 9).1 = .ok 9 ∧
       (Pipeline.execute P 9).2.trace =
         [HookEvent.pipelineStart, HookEvent.pipelineEnd] ∧
       (Pipeline.execute P 9).2.ctx.stageResults = [] ∧
       (Pipeline.execute P 9).2.ctx.skippedStages = [] ∧
       (Pipeline.execute P 9).2.ctx.aborted = false) := by
  intro P
  exact ⟨rfl, rfl, C10_empty_pipeline P 9 rfl rfl⟩


/-! Step-description lemmas for `executeStage` over a listener-free bus. -/

theorem executeStage_noListeners_success {P : Pipeline α ε}
    (hhooks : P.hooks = noListeners) {st : Stage α ε} {input v : α}
    {s : EngineState α ε} (rc : Nat)
    (hcond : st.condition = none)
    (hdep : checkDependencies st s.ctx = true)
    (hexec : st.execute rc input s.ctx = .ok v) :
    executeStage P st input s rc = (.ok v, successState st v s) := by
  have hcp : conditionPasses st s.ctx = true := by
    simp [conditionPasses, hcond]
  have hb := callHook_noListeners hhooks (HookEvent.stageBefore st.name) s
  have hafter := callHook_noListeners hhooks (HookEvent.stageAfter st.name v)
    (setResult (bumpCount { s with trace := s.trace ++ [HookEvent.stageBefore st.name] }
      st.name) st.name v)
  rw [executeStage_success_eq rc hcp hdep hb hexec hafter]
  simp [setResult, bumpCount, successState]

theorem executeStage_noListeners_absorb {P : Pipeline α ε}
    (hhooks : P.hooks = noListeners) {st : Stage α ε} {input : α} {e : ε}
    {s : EngineState α ε} (rc : Nat)
    (hcond : st.condition = none)
    (hdep : checkDependencies st s.ctx = true)
    (hexec : st.execute rc input s.ctx = .error e)
    (hcont : P.options.onError = .cont) (hskip : st.skippable = true) :
    executeStage P st input s rc = (.ok input, absorbState st e s) := by
  have hcp : conditionPasses st s.ctx = true := by
    simp [conditionPasses, hcond]
  have hb := callHook_noListeners hhooks (HookEvent.stageBefore st.name) s
  have herr := callHook_noListeners hhooks (HookEvent.stageError st.name e)
    (bumpCount { s with trace := s.trace ++ [HookEvent.stageBefore st.name] } st.name)
  have hnr : ¬(P.options.onError = .retry ∧ rc < effMaxRetries P.options) := by
    simp [hcont]
  rw [executeStage_absorb_eq rc hcp hdep hb hexec herr hnr hcont hskip]
  simp [addSkip, bumpCount, absorbState]

theorem executeStage_noListeners_failStep {P : Pipeline α ε}
    (hhooks : P.hooks = noListeners) {st : Stage α ε} {input : α} {e : ε}
    {s : EngineState α ε} (rc : Nat)
    (hcond : st.condition = none)
    (hdep : checkDependencies st s.ctx = true)
    (hexec : st.execute rc input s.ctx = .error e)
    (hretry : P.options.onError = .retry) (hlt : rc < effMaxRetries P.options) :
    executeStage P st input s rc =
      executeStage P st input (failStepState st e s) (rc + 1) := by
  have hcp : conditionPasses st s.ctx = true := by
    simp [conditionPasses, hcond]
  have hb := callHook_noListeners hhooks (HookEvent.stageBefore st.name) s
  have herr := callHook_noListeners hhooks (HookEvent.stageError st.name e)
    (bumpCount { s with trace := s.trace ++ [HookEvent.stageBefore st.name] } st.name)
  rw [executeStage_retry_eq rc hcp hdep hb hexec herr hretry hlt]
  have hst : ({ bumpCount { s with trace := s.trace ++ [HookEvent.stageBefore st.name] }
        st.name with trace :=
        (bumpCount { s with trace := s.trace ++ [HookEvent.stageBefore st.name] }
          st.name).trace ++ [HookEvent.stageError st.name e] } : EngineState α ε) =
      failStepState st e s := by
    simp [bumpCount, failStepState]
  rw [hst]

theorem executeStage_noListeners_rethrow {P : Pipeline α ε}
    (hhooks : P.hooks = noListeners) {st : Stage α ε} {input : α} {e : ε}
    {s : EngineState α ε} (rc : Nat)
    (hcond : st.condition = none)
    (hdep : checkDependencies st s.ctx = true)
    (hexec : st.execute rc input s.ctx = .error e)
    (hnr : ¬(P.options.onError = .retry ∧ rc < effMaxRetries P.options))
    (hnc : ¬(P.options.onError = .cont ∧ st.skippable = true)) :
    executeStage P st input s rc = (.error (.userError e), failStepState st e s) := by
  have hcp : conditionPasses st s.ctx = true := by
    simp [conditionPasses, hcond]
  have hb := callHook_noListeners hhooks (HookEvent.stageBefore st.name) s
  have herr := callHook_noListeners hhooks (HookEvent.stageError st.name e)
    (bumpCount { s with trace := s.trace ++ [HookEvent.stageBefore st.name] } st.name)
  rw [executeStage_rethrow_eq rc hcp hdep hb hexec herr hnr hnc]
  simp [bumpCount, failStepState]

/-! Step lemmas for the sequential loop and top-level assembly. -/

theorem executeSequential_cons_ok {P : Pipeline α ε} {st : Stage α ε}
    {tl : List (Stage α ε)} {i : Nat} {input out : α} {s s1 : EngineState α ε}
    (hab : s.ctx.aborted = false)
    (hstep : executeStage P st input
      { s with ctx := { s.ctx with currentStageIndex := i } } 0 = (.ok out, s1)) :
    executeSequential P (st :: tl) i input s = executeSequential P tl (i + 1) out s1 := by
  simp only [executeSequential]
  rw [if_neg (show ¬(s.ctx.aborted = true) by simp [hab]), hstep]

theorem executeSequential_cons_error {P : Pipeline α ε} {st : Stage α ε}
    {tl : List (Stage α ε)} {i : Nat} {input : α} {e : PipeError ε}
    {s s1 : EngineState α ε}
    (hab : s.ctx.aborted = false)
    (hstep : executeStage P st input
      { s with ctx := { s.ctx with currentStageIndex := i } } 0 = (.error e, s1)) :
    executeSequential P (st :: tl) i input s = (.error e, s1) := by
  simp only [executeSequential]
  rw [if_neg (show ¬(s.ctx.aborted = true) by simp [hab]), hstep]

theorem execute_noListeners_seq_ok {P : Pipeline α ε} {input v : α}
    {s2 : EngineState α ε}
    (hhooks : P.hooks = noListeners) (hpar : P.options.parallel = false)
    (hseq : executeSequential P P.stages 0 input
      { ctx := createPipelineContext P.options.name,
        trace := [HookEvent.pipelineStart], counts := fun _ => 0 } = (.ok v, s2)) :
    Pipeline.execute P input =
      (.ok v, { s2 with trace := s2.trace ++ [HookEvent.pipelineEnd] }) := by
  have hstart : callHook P HookEvent.pipelineStart
      { ctx := createPipelineContext P.options.name, trace := [],
        counts := fun _ => 0 } =
      (.ok (), { ctx := createPipelineContext P.options.name,
                 trace := [HookEvent.pipelineStart], counts := fun _ => 0 }) :=
    callHook_noListeners hhooks HookEvent.pipelineStart _
  have hend := callHook_noListeners hhooks HookEvent.pipelineEnd s2
  simp [Pipeline.execute, hstart, hpar, initialState, hseq, hend]

theorem execute_noListeners_seq_error {P : Pipeline α ε} {input : α}
    {e : PipeError ε} {s2 : EngineState α ε}
    (hhooks : P.hooks = noListeners) (hpar : P.options.parallel = false)
    (hseq : executeSequential P P.stages 0 input
      { ctx := createPipelineContext P.options.name,
        trace := [HookEvent.pipelineStart], counts := fun _ => 0 } = (.error e, s2)) :
    Pipeline.execute P input =
      (.error e, { s2 with ctx := { s2.ctx with aborted := true } }) := by
  have hstart : callHook P HookEvent.pipelineStart
      { ctx := createPipelineContext P.options.name, trace := [],
        counts := fun _ => 0 } =
      (.ok (), { ctx := createPipelineContext P.options.name,
                 trace := [HookEvent.pipelineStart], counts := fun _ => 0 }) :=
    callHook_noListeners hhooks HookEvent.pipelineStart _
  simp [Pipeline.execute, hstart, hpar, initialState, hseq]


/-- C5: with `onError = continue` and a skippable failing stage, the failure is
absorbed: the stage lands in `skippedStages`, no exception escapes `execute`,
the stage's input is passed through unchanged (so the downstream stage sees
it), and a downstream stage depending on the failed stage passes its
dependency check and runs exactly as if the stage had completed. -/
theorem C5_continue_skippable_absorbs (P : Pipeline α ε) (A B : Stage α ε)
    (input : α) (eA : ε) (g : α → α)
    (hstages : P.stages = [A, B]) (hpar : P.options.parallel = false)
    (hcont : P.options.onError = .cont) (hhooks : P.hooks = noListeners)
    (hAcond : A.condition = none) (hAdeps : A.dependencies = [])
    (hAskip : A.skippable = true)
    (hAfail : ∀ x c, A.execute 0 x c = .error eA)
    (hBcond : B.condition = none) (hBdeps : B.dependencies = [A.name])
    (hBexec : ∀ k x c, B.execute k x c = .ok (g x))
    (hne : B.name ≠ A.name) :
    (Pipeline.execute P input).1 = .ok (g input) ∧
    (Pipeline.execute P input).2.ctx.skippedStages.contains A.name = true ∧
    mapLookup (Pipeline.execute P input).2.ctx.stageResults B.name = some (g input) ∧
    (Pipeline.execute P input).2.counts B.name = 1 ∧
    (Pipeline.execute P input).2.counts A.name = 1 := by
  have hA : executeStage P A input
      { ctx := { pipelineName := P.options.name, currentStageIndex := 0,
                 stageResults := [], shared := [], aborted := false,
                 skippedStages := [] },
        trace := [HookEvent.pipelineStart], counts := fun _ => 0 } 0 =
      (.ok input,
       { ctx := { pipelineName := P.options.name, currentStageIndex := 0,
                  stageResults := [], shared := [], aborted := false,
                  skippedStages := [A.name] },
         trace := [HookEvent.pipelineStart, HookEvent.stageBefore A.name,
           HookEvent.stageError A.name eA],
         counts := fun n => if n = A.name then 1 else 0 }) := by
    rw [executeStage_noListeners_absorb hhooks 0 hAcond
      (by simp [checkDependencies, hAdeps]) (hAfail input _) hcont hAskip]
    simp [absorbState, bumpCount, setAdd]
  have hB : executeStage P B input
      { ctx := { pipelineName := P.options.name, currentStageIndex := 1,
                 stageResults := [], shared := [], aborted := false,
                 skippedStages := [A.name] },
        trace := [HookEvent.pipelineStart, HookEvent.stageBefore A.name,
          HookEvent.stageError A.name eA],
        counts := fun n => if n = A.name then 1 else 0 } 0 =
      (.ok (g input),
       { ctx := { pipelineName := P.options.name, currentStageIndex := 1,
                  stageResults := [(B.name, g input)], shared := [],
                  aborted := false, skippedStages := [A.name] },
         trace := [HookEvent.pipelineStart, HookEvent.stageBefore A.name,
           HookEvent.stageError A.name eA, HookEvent.stageBefore B.name,
           HookEvent.stageAfter B.name (g input)],
         counts := fun n => if n = B.name then (if n = A.name then 1 else 0) + 1
           else (if n = A.name then 1 else 0) }) := by
    rw [executeStage_noListeners_success hhooks 0 hBcond
      (by simp [checkDependencies, hBdeps, mapHas]) (hBexec _ input _)]
    simp [successState, bumpCount, mapSet]
  have hseq : executeSequential P P.stages 0 input
      { ctx := createPipelineContext P.options.name,
        trace := [HookEvent.pipelineStart], counts := fun _ => 0 } =
      (.ok (g input),
       { ctx := { pipelineName := P.options.name, currentStageIndex := 1,
                  stageResults := [(B.name, g input)], shared := [],
                  aborted := false, skippedStages := [A.name] },
         trace := [HookEvent.pipelineStart, HookEvent.stageBefore A.name,
           HookEvent.stageError A.name eA, HookEvent.stageBefore B.name,
           HookEvent.stageAfter B.name (g input)],
         counts := fun n => if n = B.name then (if n = A.name then 1 else 0) + 1
           else (if n = A.name then 1 else 0) }) := by
    rw [hstages]
    rw [executeSequential_cons_ok rfl hA]
    rw [executeSequential_cons_ok rfl hB]
    rfl
  have hmain := execute_noListeners_seq_ok hhooks hpar hseq
  rw [hmain]
  refine ⟨rfl, ?_, ?_, ?_, ?_⟩
  · simp
  · simp [mapLookup]
  · simp [hne]
  · simp [hne, Ne.symm hne]


/-- C5 witness: a concrete two-stage pipeline where the first (skippable)
stage always fails and the second depends on it. -/
theorem C5_continue_skippable_absorbs_witness :
    let A : Stage Nat Unit :=
      { name := "a", execute := fun _ _ _ => .error (),
        dependencies := [], condition := none, skippable := true }
    let B : Stage Nat Unit :=
      { name := "b", execute := fun _ x _ => .ok (x + 10),
        dependencies := ["a"], condition := none, skippable := false }
    let P : Pipeline Nat Unit :=
      { stages := [A, B]
        options := { name := "p", parallel := false, onError := .cont,
                     maxRetries := none }
        hooks := noListeners }
    P.stages = [A, B] ∧ P.options.parallel = false ∧
      P.options.onError = .cont ∧ P.hooks = noListeners ∧
      A.condition = none ∧ A.dependencies = [] ∧ A.skippable = true ∧
      (∀ x c, A.execute 0 x c = .error ()) ∧
      B.condition = none ∧ B.dependencies = [A.name] ∧
      (∀ k x c, B.execute k x c = .ok (x + 10)) ∧ B.name ≠ A.name ∧
      ((Pipeline.execute P 5).1 = .ok 15 ∧
       (Pipeline.execute P 5).2.ctx.skippedStages.contains A.name = true ∧
       mapLookup (Pipeline.execute P 5).2.ctx.stageResults B.name = some 15 ∧
       (Pipeline.execute P 5).2.counts B.name = 1 ∧
       (Pipeline.execute P 5).2.counts A.name = 1) := by
  intro A B P
  exact ⟨rfl, rfl, rfl, rfl, rfl, rfl, rfl, fun x c => rfl, rfl, rfl,
    fun k x c => rfl, by decide,
    C5_continue_skippable_absorbs P A B 5 () (fun x => x + 10) rfl rfl rfl rfl
      rfl rfl rfl (fun x c => rfl) rfl rfl (fun k x c => rfl) (by decide)⟩


/-- C3: with `onError = retry` and `maxRetries = 2`, a stage failing on its
first two attempts and succeeding on the third yields the success value from
the pipeline with exactly three body invocations; and a stage failing on
every attempt exhausts the bound after three invocations, the pipeline
re-raising the last attempt's error value verbatim (`userError` is the
model's wrapper for any thrown value, carrying it unchanged). -/
theorem C3_retry_three_attempts (P P2 : Pipeline α ε) (st st2 : Stage α ε)
    (input v : α) (errs errs2 : Nat → ε)
    (h1stages : P.stages = [st]) (h1par : P.options.parallel = false)
    (h1retry : P.options.onError = .retry) (h1max : P.options.maxRetries = some 2)
    (h1hooks : P.hooks = noListeners)
    (hstcond : st.condition = none) (hstdeps : st.dependencies = [])
    (hfail0 : ∀ x c, st.execute 0 x c = .error (errs 0))
    (hfail1 : ∀ x c, st.execute 1 x c = .error (errs 1))
    (hsucc2 : ∀ x c, st.execute 2 x c = .ok v)
    (h2stages : P2.stages = [st2]) (h2par : P2.options.parallel = false)
    (h2retry : P2.options.onError = .retry) (h2max : P2.options.maxRetries = some 2)
    (h2hooks : P2.hooks = noListeners)
    (hst2cond : st2.condition = none) (hst2deps : st2.dependencies = [])
    (hfailall : ∀ k x c, st2.execute k x c = .error (errs2 k)) :
    (Pipeline.execute P input).1 = .ok v ∧
    (Pipeline.execute P input).2.counts st.name = 3 ∧
    (Pipeline.execute P2 input).1 = .error (.userError (errs2 2)) ∧
    (Pipeline.execute P2 input).2.counts st2.name = 3 := by
  have heff : effMaxRetries P.options = 2 := by
    unfold effMaxRetries
    rw [h1max]
  have heff2 : effMaxRetries P2.options = 2 := by
    unfold effMaxRetries
    rw [h2max]
  have hdep : ∀ ctx : PipelineContext α, checkDependencies st ctx = true := by
    intro ctx
    simp [checkDependencies, hstdeps]
  have hdep2 : ∀ ctx : PipelineContext α, checkDependencies st2 ctx = true := by
    intro ctx
    simp [checkDependencies, hst2deps]
  have hstage : executeStage P st input
      { ctx := { pipelineName := P.options.name, currentStageIndex := 0,
                 stageResults := [], shared := [], aborted := false,
                 skippedStages := [] },
        trace := [HookEvent.pipelineStart], counts := fun _ => 0 } 0 =
      (.ok v, successState st v (failStepState st (errs 1) (failStepState st (errs 0)
        { ctx := { pipelineName := P.options.name, currentStageIndex := 0,
                   stageResults := [], shared := [], aborted := false,
                   skippedStages := [] },
          trace := [HookEvent.pipelineStart], counts := fun _ => 0 }))) := by
    rw [executeStage_noListeners_failStep h1hooks 0 hstcond (hdep _)
      (hfail0 input _) h1retry (by rw [heff]; omega)]
    rw [executeStage_noListeners_failStep h1hooks 1 hstcond (hdep _)
      (hfail1 input _) h1retry (by rw [heff]; omega)]
    rw [executeStage_noListeners_success h1hooks 2 hstcond (hdep _)
      (hsucc2 input _)]
  have hseq : executeSequential P P.stages 0 input
      { ctx := createPipelineContext P.options.name,
        trace := [HookEvent.pipelineStart], counts := fun _ => 0 } =
      (.ok v, successState st v (failStepState st (errs 1) (failStepState st (errs 0)
        { ctx := { pipelineName := P.options.name, currentStageIndex := 0,
                   stageResults := [], shared := [], aborted := false,
                   skippedStages := [] },
          trace := [HookEvent.pipelineStart], counts := fun _ => 0 }))) := by
    rw [h1stages]
    rw [executeSequential_cons_ok rfl hstage]
    rfl
  have hmain := execute_noListeners_seq_ok h1hooks h1par hseq
  have hstage2 : executeStage P2 st2 input
      { ctx := { pipelineName := P2.options.name, currentStageIndex := 0,
                 stageResults := [], shared := [], aborted := false,
                 skippedStages := [] },
        trace := [HookEvent.pipelineStart], counts := fun _ => 0 } 0 =
      (.error (.userError (errs2 2)),
       failStepState st2 (errs2 2) (failStepState st2 (errs2 1) (failStepState st2 (errs2 0)
        { ctx := { pipelineName := P2.options.name, currentStageIndex := 0,
                   stageResults := [], shared := [], aborted := false,
                   skippedStages := [] },
          trace := [HookEvent.pipelineStart], counts := fun _ => 0 }))) := by
    rw [executeStage_noListeners_failStep h2hooks 0 hst2cond (hdep2 _)
      (hfailall 0 input _) h2retry (by rw [heff2]; omega)]
    rw [executeStage_noListeners_failStep h2hooks 1 hst2cond (hdep2 _)
      (hfailall 1 input _) h2retry (by rw [heff2]; omega)]
    rw [executeStage_noListeners_rethrow h2hooks 2 hst2cond (hdep2 _)
      (hfailall 2 input _) (by rw [heff2]; simp) (by simp [h2retry])]
  have hseq2 : executeSequential P2 P2.stages 0 input
      { ctx := createPipelineContext P2.options.name,
        trace := [HookEvent.pipelineStart], counts := fun _ => 0 } =
      (.error (.userError (errs2 2)),
       failStepState st2 (errs2 2) (failStepState st2 (errs2 1) (failStepState st2 (errs2 0)
        { ctx := { pipelineName := P2.options.name, currentStageIndex := 0,
                   stageResults := [], shared := [], aborted := false,
                   skippedStages := [] },
          trace := [HookEvent.pipelineStart], counts := fun _ => 0 }))) := by
    rw [h2stages]
    rw [executeSequential_cons_error rfl hstage2]
  have hmain2 := execute_noListeners_seq_error h2hooks h2par hseq2
  rw [hmain, hmain2]
  refine ⟨rfl, ?_, rfl, ?_⟩
  · simp [successState, failStepState, bumpCount]
  · simp [failStepState, bumpCount]


/-- C9: with `onError = retry`, an explicit `maxRetries = 0` does not disable
retries: `0` is falsy in the source's `maxRetries || 3`, so a persistently
failing stage's body runs exactly four times (one initial attempt plus three
retries) before the final error propagates — the very same outcome as when
`maxRetries` is left unset. -/
theorem C9_maxretries_zero_not_disabled (P0 Pn : Pipeline α ε) (st : Stage α ε)
    (input : α) (errs : Nat → ε)
    (h0stages : P0.stages = [st]) (h0par : P0.options.parallel = false)
    (h0retry : P0.options.onError = .retry) (h0max : P0.options.maxRetries = some 0)
    (h0hooks : P0.hooks = noListeners)
    (hnstages : Pn.stages = [st]) (hnpar : Pn.options.parallel = false)
    (hnretry : Pn.options.onError = .retry) (hnmax : Pn.options.maxRetries = none)
    (hnhooks : Pn.hooks = noListeners)
    (hname : Pn.options.name = P0.options.name)
    (hstcond : st.condition = none) (hstdeps : st.dependencies = [])
    (hfailall : ∀ k x c, st.execute k x c = .error (errs k)) :
    (Pipeline.execute P0 input).1 = .error (.userError (errs 3)) ∧
    (Pipeline.execute P0 input).2.counts st.name = 4 ∧
    Pipeline.execute Pn input = Pipeline.execute P0 input := by
  have hdep : ∀ ctx : PipelineContext α, checkDependencies st ctx = true := by
    intro ctx
    simp [checkDependencies, hstdeps]
  have chain : ∀ Q : Pipeline α ε, Q.stages = [st] → Q.options.parallel = false →
      Q.options.onError = .retry → Q.hooks = noListeners →
      effMaxRetries Q.options = 3 →
      Pipeline.execute Q input =
      (.error (.userError (errs 3)),
       { failStepState st (errs 3) (failStepState st (errs 2) (failStepState st (errs 1)
          (failStepState st (errs 0)
          { ctx := { pipelineName := Q.options.name, currentStageIndex := 0,
                     stageResults := [], shared := [], aborted := false,
                     skippedStages := [] },
            trace := [HookEvent.pipelineStart], counts := fun _ => 0 }))) with
         ctx := { pipelineName := Q.options.name, currentStageIndex := 0,
                  stageResults := [], shared := [], aborted := true,
                  skippedStages := [] } }) := by
    intro Q hQs hQp hQr hQh hQe
    have hstage : executeStage Q st input
        { ctx := { pipelineName := Q.options.name, currentStageIndex := 0,
                   stageResults := [], shared := [], aborted := false,
                   skippedStages := [] },
          trace := [HookEvent.pipelineStart], counts := fun _ => 0 } 0 =
        (.error (.userError (errs 3)),
         failStepState st (errs 3) (failStepState st (errs 2) (failStepState st (errs 1)
          (failStepState st (errs 0)
          { ctx := { pipelineName := Q.options.name, currentStageIndex := 0,
                     stageResults := [], shared := [], aborted := false,
                     skippedStages := [] },
            trace := [HookEvent.pipelineStart], counts := fun _ => 0 })))) := by
      rw [executeStage_noListeners_failStep hQh 0 hstcond (hdep _)
        (hfailall 0 input _) hQr (by rw [hQe]; omega)]
      rw [executeStage_noListeners_failStep hQh 1 hstcond (hdep _)
        (hfailall 1 input _) hQr (by rw [hQe]; omega)]
      rw [executeStage_noListeners_failStep hQh 2 hstcond (hdep _)
        (hfailall 2 input _) hQr (by rw [hQe]; omega)]
      rw [executeStage_noListeners_rethrow hQh 3 hstcond (hdep _)
        (hfailall 3 input _) (by rw [hQe]; simp) (by simp [hQr])]
    have hseq : executeSequential Q Q.stages 0 input
        { ctx := createPipelineContext Q.options.name,
          trace := [HookEvent.pipelineStart], counts := fun _ => 0 } =
        (.error (.userError (errs 3)),
         failStepState st (errs 3) (failStepState st (errs 2) (failStepState st (errs 1)
          (failStepState st (errs 0)
          { ctx := { pipelineName := Q.options.name, currentStageIndex := 0,
                     stageResults := [], shared := [], aborted := false,
                     skippedStages := [] },
            trace := [HookEvent.pipelineStart], counts := fun _ => 0 })))) := by
      rw [hQs]
      rw [executeSequential_cons_error rfl hstage]
    have hres := execute_noListeners_seq_error hQh hQp hseq
    rw [hres]
    simp [failStepState]
  have heff0 : effMaxRetries P0.options = 3 := by
    unfold effMaxRetries
    rw [h0max]
  have heffn : effMaxRetries Pn.options = 3 := by
    unfold effMaxRetries
    rw [hnmax]
  have hm0 := chain P0 h0stages h0par h0retry h0hooks heff0
  have hmn := chain Pn hnstages hnpar hnretry hnhooks heffn
  refine ⟨by rw [hm0], ?_, ?_⟩
  · rw [hm0]
    simp [failStepState, bumpCount]
  · rw [hm0, hmn, hname]


/-- C3 witness: a concrete stage failing twice then succeeding, and a second
one failing on every attempt, both under `maxRetries = 2`. -/
theorem C3_retry_three_attempts_witness :
    let st : Stage Nat Nat :=
      { name := "a", execute := fun k x _ => if k < 2 then .error k else .ok 42,
        dependencies := [], condition := none, skippable := false }
    let st2 : Stage Nat Nat :=
      { name := "b", execute := fun k _ _ => .error k,
        dependencies := [], condition := none, skippable := false }
    let P : Pipeline Nat Nat :=
      { stages := [st]
        options := { name := "p", parallel := false, onError := .retry,
                     maxRetries := some 2 }
        hooks := noListeners }
    let P2 : Pipeline Nat Nat :=
      { stages := [st2]
        options := { name := "q", parallel := false, onError := .retry,
                     maxRetries := some 2 }
        hooks := noListeners }
    P.stages = [st] ∧ P.options.maxRetries = some 2 ∧
      (∀ x c, st.execute 0 x c = .error 0) ∧
      (∀ x c, st.execute 1 x c = .error 1) ∧
      (∀ x c, st.execute 2 x c = .ok 42) ∧
      (∀ k x c, st2.execute k x c = .error k) ∧
      ((Pipeline.execute P 7).1 = .ok 42 ∧
       (Pipeline.execute P 7).2.counts st.name = 3 ∧
       (Pipeline.execute P2 7).1 = .error (.userError 2) ∧
       (Pipeline.execute P2 7).2.counts st2.name = 3) := by
  intro st st2 P P2
  exact ⟨rfl, rfl, fun x c => rfl, fun x c => rfl, fun x c => rfl,
    fun k x c => rfl,
    C3_retry_three_attempts P P2 st st2 7 42 (fun k => k) (fun k => k)
      rfl rfl rfl rfl rfl rfl rfl (fun x c => rfl) (fun x c => rfl)
      (fun x c => rfl) rfl rfl rfl rfl rfl rfl rfl (fun k x c => rfl)⟩

/-- C9 witness: one persistently failing stage under `maxRetries = 0` and
under an unset `maxRetries`, with equal outcomes. -/
theorem C9_maxretries_zero_not_disabled_witness :
    let st : Stage Nat Nat :=
      { name := "a", execute := fun k _ _ => .error k,
        dependencies := [], condition := none, skippable := false }
    let P0 : Pipeline Nat Nat :=
      { stages := [st]
        options := { name := "p", parallel := false, onError := .retry,
                     maxRetries := some 0 }
        hooks := noListeners }
    let Pn : Pipeline Nat Nat :=
      { stages := [st]
        options := { name := "p", parallel := false, onError := .retry,
                     maxRetries := none }
        hooks := noListeners }
    P0.options.maxRetries = some 0 ∧ Pn.options.maxRetries = none ∧
      (∀ k x c, st.execute k x c = .error k) ∧
      ((Pipeline.execute P0 1).1 = .error (.userError 3) ∧
       (Pipeline.execute P0 1).2.counts st.name = 4 ∧
       Pipeline.execute Pn 1 = Pipeline.execute P0 1) := by
  intro st P0 Pn
  exact ⟨rfl, rfl, fun k x c => rfl,
    C9_maxretries_zero_not_disabled P0 Pn st 1 (fun k => k)
      rfl rfl rfl rfl rfl rfl rfl rfl rfl rfl rfl rfl rfl (fun k x c => rfl)⟩


/-- C8: a `lifecycle:execute` listener that calls `abort(reason)` on the active
context stops the run right after that phase: the hooks fired are exactly
`lifecycle:init, validate, prepare, execute` (so `lifecycle:transform` and all
later phases never fire), `run` returns normally with the last produced
context, and that context reports `aborted = true` with the supplied reason. -/
theorem C8_lifecycle_abort (α : Type) (data : α) (reason : String) :
    LifecycleManager.run
      (fun p ctx => if p = LifecyclePhase.execute
        then .ok { ctx with aborted := true, abortReason := some reason }
        else (.ok ctx : Except Unit (LifecycleContext α)))
      data defaultRunOptions =
    .ok ({ phase := .execute, data := data, aborted := true,
           abortReason := some reason, meta := [] },
         { currentPhase := some .execute,
           context := some
             { phase := .execute, data := data, aborted := true,
               abortReason := some reason, meta := [] },
           lifecycleTrace := [.init, .validate, .prepare, .execute] }) := by
  rfl


theorem runWave_skipped_mono {P : Pipeline α ε} (hP : TameHooks P) :
    ∀ (wave : List (Stage α ε)) (input : α) (s : EngineState α ε)
      (r : Except (PipeError ε) (List α)) (s' : EngineState α ε),
      runWave P wave input s = (r, s') →
      ∀ n, s.ctx.skippedStages.contains n = true →
        s'.ctx.skippedStages.contains n = true := by
  intro wave
  induction wave with
  | nil =>
    intro input s r s' heq n hn
    unfold runWave at heq
    rw [show s' = s from (congrArg Prod.snd heq).symm]
    exact hn
  | cons stage tl ih =>
    intro input s r s' heq n hn
    unfold runWave at heq
    rcases hstep : executeStage P stage input s 0 with ⟨r1, s1⟩
    have hn1 := executeStage_skipped_mono hP hstep n hn
    cases r1 with
    | error e =>
      simp only [hstep] at heq
      rw [show s' = s1 from (congrArg Prod.snd heq).symm]
      exact hn1
    | ok v =>
      rcases hrest : runWave P tl input s1 with ⟨r2, s2⟩
      have hn2 := ih input s1 r2 s2 hrest n hn1
      simp only [hstep, hrest] at heq
      cases r2 with
      | error e => rw [show s' = s2 from (congrArg Prod.snd heq).symm]; exact hn2
      | ok rs => rw [show s' = s2 from (congrArg Prod.snd heq).symm]; exact hn2

theorem runWave_lookup_frame {P : Pipeline α ε} (hP : TameHooks P) :
    ∀ (wave : List (Stage α ε)) (input : α) (s : EngineState α ε)
      (r : Except (PipeError ε) (List α)) (s' : EngineState α ε),
      runWave P wave input s = (r, s') →
      ∀ n, (∀ st ∈ wave, ¬(st.name = n)) →
        mapLookup s'.ctx.stageResults n = mapLookup s.ctx.stageResults n ∧
        s'.ctx.skippedStages.contains n = s.ctx.skippedStages.contains n := by
  intro wave
  induction wave with
  | nil =>
    intro input s r s' heq n hn
    unfold runWave at heq
    rw [show s' = s from (congrArg Prod.snd heq).symm]
    exact ⟨rfl, rfl⟩
  | cons stage tl ih =>
    intro input s r s' heq n hn
    unfold runWave at heq
    rcases hstep : executeStage P stage input s 0 with ⟨r1, s1⟩
    obtain ⟨-, hL1, hK1⟩ := executeStage_tame_frame hP hstep n
      (fun hc => hn stage (List.mem_cons_self _ _) hc.symm)
    cases r1 with
    | error e =>
      simp only [hstep] at heq
      rw [show s' = s1 from (congrArg Prod.snd heq).symm]
      exact ⟨hL1, hK1⟩
    | ok v =>
      rcases hrest : runWave P tl input s1 with ⟨r2, s2⟩
      obtain ⟨hL2, hK2⟩ := ih input s1 r2 s2 hrest n
        (fun st hst => hn st (List.mem_cons_of_mem _ hst))
      simp only [hstep, hrest] at heq
      cases r2 with
      | error e =>
        rw [show s' = s2 from (congrArg Prod.snd heq).symm]
        exact ⟨hL2.trans hL1, hK2.trans hK1⟩
      | ok rs =>
        rw [show s' = s2 from (congrArg Prod.snd heq).symm]
        exact ⟨hL2.trans hL1, hK2.trans hK1⟩

/-- One settled wave yields exactly one result per eligible stage, positionally
in stage-list order, and every stage of the wave that is not skipped can
retrieve its own output from `stageResults` under its name afterwards. -/
theorem runWave_results {P : Pipeline α ε} (hP : TameHooks P) :
    ∀ (wave : List (Stage α ε)) (input : α) (s : EngineState α ε)
      (results : List α) (s' : EngineState α ε),
      runWave P wave input s = (.ok results, s') →
      (wave.map Stage.name).Nodup →
      results.length = wave.length ∧
      (∀ i (h1 : i < wave.length) (h2 : i < results.length),
        s'.ctx.skippedStages.contains (wave.get ⟨i, h1⟩).name = false →
        mapLookup s'.ctx.stageResults (wave.get ⟨i, h1⟩).name =
          some (results.get ⟨i, h2⟩)) := by
  intro wave
  induction wave with
  | nil =>
    intro input s results s' heq hnodup
    unfold runWave at heq
    have hres : results = [] := by
      have := congrArg Prod.fst heq
      simpa using this.symm
    subst hres
    exact ⟨rfl, fun i h1 => absurd h1 (by simp)⟩
  | cons stage tl ih =>
    intro input s results s' heq hnodup
    unfold runWave at heq
    rcases hstep : executeStage P stage input s 0 with ⟨r1, s1⟩
    cases r1 with
    | error e =>
      simp only [hstep] at heq
      exact absurd (congrArg Prod.fst heq) (by simp)
    | ok v =>
      rcases hrest : runWave P tl input s1 with ⟨r2, s2⟩
      simp only [hstep, hrest] at heq
      cases r2 with
      | error e =>
        exact absurd (congrArg Prod.fst heq) (by simp)
      | ok rs =>
        have hres : results = v :: rs := by
          have := congrArg Prod.fst heq
          simpa using this.symm
        have hs' : s' = s2 := (congrArg Prod.snd heq).symm
        subst hres
        subst hs'
        have hnotin : stage.name ∉ tl.map Stage.name := by
          have := hnodup
          simp only [List.map_cons, List.nodup_cons] at this
          exact this.1
        have htlnodup : (tl.map Stage.name).Nodup := by
          have := hnodup
          simp only [List.map_cons, List.nodup_cons] at this
          exact this.2
        obtain ⟨hlen, hlook⟩ := ih input s1 rs s' hrest htlnodup
        refine ⟨by simpa using hlen, ?_⟩
        intro i h1 h2 hnotskip
        cases i with
        | zero =>
          rcases executeStage_tame_cases hP stage input s 0 _ _ hstep with h | h | h
          · obtain ⟨e, he⟩ := h.1
            exact Except.noConfusion he
          · obtain ⟨w, hw, hR1, hK1⟩ := h
            injection hw with hvw
            subst hvw
            obtain ⟨hL2, -⟩ := runWave_lookup_frame hP tl input s1 _ s' hrest
              stage.name (by
                intro st hst hcon
                exact hnotin (hcon ▸ List.mem_map_of_mem Stage.name hst))
            simp only [List.get]
            rw [hL2, hR1]
            exact mapLookup_mapSet_self _ _ _
          · obtain ⟨hv, hR1, hK1⟩ := h
            have hmem : s1.ctx.skippedStages.contains stage.name = true := by
              rw [hK1]
              exact contains_setAdd_self _ _
            have := runWave_skipped_mono hP tl input s1 _ s' hrest stage.name hmem
            simp only [List.get] at hnotskip
            rw [this] at hnotskip
            exact Bool.noConfusion hnotskip
        | succ j =>
          have h1t : j < tl.length := by simpa using h1
          have h2t : j < rs.length := by simpa using h2
          have := hlook j h1t h2t
          simpa using this (by simpa using hnotskip)


/-- C2: after a parallel wave settles, the loop carries exactly
`results.getLastD input` — the last-assigned result, i.e. the output of the
last stage of the wave in stage-list iteration order (`executableStages` is a
stage-list-order filter) — forward to the next wave; the wave produced one
result per eligible stage positionally, and each wave stage that was not
skipped remains retrievable in `stageResults` under its own name with its own
output (so sibling outputs are not part of the carried value but are not
lost). -/
theorem C2_wave_carry_and_results (P : Pipeline α ε) (input : α)
    (s s' : EngineState α ε) (pending : List String) (results : List α)
    (hpar : P.options.parallel = true) (hP : TameHooks P)
    (hnodup : (P.stages.map Stage.name).Nodup)
    (hpend : pending.isEmpty = false)
    (hwave : (executableStages P pending s.ctx).isEmpty = false)
    (hrun : runWave P (executableStages P pending s.ctx) input s =
      (.ok results, s')) :
    executeParallelLoop P pending input s =
      (if s'.ctx.aborted = true then (.ok (results.getLastD input), s')
       else executeParallelLoop P
         (removeWave pending (executableStages P pending s.ctx))
         (results.getLastD input) s') ∧
    results.length = (executableStages P pending s.ctx).length ∧
    (∀ i (h1 : i < (executableStages P pending s.ctx).length)
       (h2 : i < results.length),
       s'.ctx.skippedStages.contains
         ((executableStages P pending s.ctx).get ⟨i, h1⟩).name = false →
       mapLookup s'.ctx.stageResults
         ((executableStages P pending s.ctx).get ⟨i, h1⟩).name =
         some (results.get ⟨i, h2⟩)) := by
  have hwnodup : ((executableStages P pending s.ctx).map Stage.name).Nodup :=
    waveNodup P pending s.ctx hnodup
  obtain ⟨hlen, hlook⟩ := runWave_results hP _ input s results s' hrun hwnodup
  refine ⟨?_, hlen, hlook⟩
  cases hab : s'.ctx.aborted with
  | true =>
    rw [executeParallelLoop_waveAborted_eq hpend hwave hrun hab]
    simp
  | false =>
    rw [executeParallelLoop_waveStep_eq hpend hwave hrun hab]
    simp

/-- C2 witness: a first wave of two independent stages; the carried value is
the second (last) stage's output while the first stage's output stays
retrievable in `stageResults`. -/
theorem C2_wave_carry_and_results_witness :
    let stA : Stage Nat Unit :=
      { name := "a", execute := fun _ x _ => .ok (x + 1),
        dependencies := [], condition := none, skippable := false }
    let stB : Stage Nat Unit :=
      { name := "b", execute := fun _ x _ => .ok (x + 2),
        dependencies := [], condition := none, skippable := false }
    let P : Pipeline Nat Unit :=
      { stages := [stA, stB]
        options := { name := "p", parallel := true, onError := .stop,
                     maxRetries := none }
        hooks := noListeners }
    let s : EngineState Nat Unit := initialState "p"
    P.options.parallel = true ∧ TameHooks P ∧
      ((P.stages.map Stage.name).Nodup) ∧
      (["a", "b"] : List String).isEmpty = false ∧
      (executableStages P ["a", "b"] s.ctx).isEmpty = false ∧
      runWave P (executableStages P ["a", "b"] s.ctx) 5 s =
        (.ok [6, 7], successState stB 7 (successState stA 6 s)) ∧
      (executeParallelLoop P ["a", "b"] 5 s =
        (if (successState stB 7 (successState stA 6 s)).ctx.aborted = true then
          (.ok (([6, 7] : List Nat).getLastD 5),
           successState stB 7 (successState stA 6 s))
         else executeParallelLoop P
           (removeWave ["a", "b"] (executableStages P ["a", "b"] s.ctx))
           (([6, 7] : List Nat).getLastD 5)
           (successState stB 7 (successState stA 6 s))) ∧
       ([6, 7] : List Nat).length =
         (executableStages P ["a", "b"] s.ctx).length ∧
       (∀ i (h1 : i < (executableStages P ["a", "b"] s.ctx).length)
          (h2 : i < ([6, 7] : List Nat).length),
          (successState stB 7 (successState stA 6 s)).ctx.skippedStages.contains
            ((executableStages P ["a", "b"] s.ctx).get ⟨i, h1⟩).name = false →
          mapLookup (successState stB 7 (successState stA 6 s)).ctx.stageResults
            ((executableStages P ["a", "b"] s.ctx).get ⟨i, h1⟩).name =
            some (([6, 7] : List Nat).get ⟨i, h2⟩))) := by
  intro stA stB P s
  have htame : TameHooks P := fun ev ctx => ⟨ctx, rfl, rfl, rfl⟩
  have hA : executeStage P stA 5 s 0 = (.ok 6, successState stA 6 s) :=
    executeStage_noListeners_success rfl 0 rfl rfl rfl
  have hB : executeStage P stB 5 (successState stA 6 s) 0 =
      (.ok 7, successState stB 7 (successState stA 6 s)) :=
    executeStage_noListeners_success rfl 0 rfl rfl rfl
  have hexec : executableStages P ["a", "b"] s.ctx = [stA, stB] := rfl
  have hrun : runWave P (executableStages P ["a", "b"] s.ctx) 5 s =
      (.ok [6, 7], successState stB 7 (successState stA 6 s)) := by
    rw [hexec]
    simp only [runWave, hA, hB]
  exact ⟨rfl, htame, by simp, rfl, by rw [hexec]; rfl, hrun,
    C2_wave_carry_and_results P 5 s (successState stB 7 (successState stA 6 s))
      ["a", "b"] [6, 7] rfl htame (by simp) rfl (by rw [hexec]; rfl) hrun⟩

end Nexo
